import Mathlib

/-!
Shallow embedding of the ACL uniformly-sampled full-precision encoder
(`includes/acl/algorithm/uniformly_sampled/encoder.h`).

Machine `float` values are modelled as exact rationals (`ℚ`); machine
integer narrowing that the source guards with `safe_static_cast` is
modelled as an explicit range check.  Helpers that live in headers
outside the provided source tree (`core/bitset.h`, `core/utils.h`,
`core/memory.h`, the math headers) are modelled from the spec; each such
definition carries a doc comment saying so.
-/

namespace ACL

/-- Quaternion value, `acl::Quat_32`, components modelled as exact rationals. -/
structure Quat_32 where
  x : ℚ
  y : ℚ
  z : ℚ
  w : ℚ
deriving DecidableEq

/-- Vector value, `acl::Vector4_32` (only the three components the encoder reads). -/
structure Vector4_32 where
  x : ℚ
  y : ℚ
  z : ℚ
deriving DecidableEq

/-- One animated rotation track of one bone: the three classification
predicates exposed by `AnimatedTrack` plus the sample accessor. -/
structure RotationTrack where
  is_default : Bool
  is_constant : Bool
  is_animated : Bool
  get_sample : ℕ → Quat_32

/-- One animated translation track of one bone. -/
structure TranslationTrack where
  is_default : Bool
  is_constant : Bool
  is_animated : Bool
  get_sample : ℕ → Vector4_32

/-- `acl::AnimatedBone`: a rotation track and a translation track. -/
structure AnimatedBone where
  rotation_track : RotationTrack
  translation_track : TranslationTrack

/-- `acl::AnimationClip` as the encoder reads it: bone count, sample count,
sample rate and the indexed bone accessor. -/
structure AnimationClip where
  num_bones : ℕ
  num_samples : ℕ
  sample_rate : ℕ
  get_animated_bone : ℕ → AnimatedBone

/-- `acl::RotationFormat8`: the closed rotation-format enumeration. -/
inductive RotationFormat8 where
  | Quat_128
  | Quat_96
  | Quat_48
  | Quat_32
deriving DecidableEq

/-- `acl::VectorFormat8`: the closed translation-format enumeration. -/
inductive VectorFormat8 where
  | Vector3_96
  | Vector3_48
deriving DecidableEq

/-- Modelled from the spec: `get_rotation_size` (header outside src);
per-format byte width, bits / 8 for the 128/96/48/32-bit variants. -/
def get_rotation_size : RotationFormat8 → ℕ
  | .Quat_128 => 16
  | .Quat_96 => 12
  | .Quat_48 => 6
  | .Quat_32 => 4

/-- Modelled from the spec: `get_translation_size` (header outside src);
per-format byte width, bits / 8 for the 96/48-bit variants. -/
def get_translation_size : VectorFormat8 → ℕ
  | .Vector3_96 => 12
  | .Vector3_48 => 6

/-- Modelled from the spec: `symmetric_round` (`core/utils.h`, outside src),
round half away from zero. -/
def symmetric_round (input : ℚ) : ℤ :=
  if 0 ≤ input then ⌊input + 1/2⌋ else ⌈input - 1/2⌉

/-- `quantize_unsigned_normalized(input, num_bits)`: the `ACL_ENSURE`
precondition `0.0 <= input <= 1.0` is modelled as returning `none` (a
reported contract failure), otherwise `symmetric_round(input * max_value)`
with `max_value = 2^num_bits - 1`. -/
def quantize_unsigned_normalized (input : ℚ) (num_bits : ℕ) : Option ℤ :=
  if 0 ≤ input ∧ input ≤ 1 then
    some (symmetric_round (input * ((2 : ℚ) ^ num_bits - 1)))
  else
    none

/-- `quantize_signed_normalized(input, num_bits)`: precondition
`-1.0 <= input <= 1.0`, then delegates to the unsigned form on
`input * 0.5 + 0.5`. -/
def quantize_signed_normalized (input : ℚ) (num_bits : ℕ) : Option ℤ :=
  if -1 ≤ input ∧ input ≤ 1 then
    quantize_unsigned_normalized (input * (1/2) + 1/2) num_bits
  else
    none

/-- Modelled from the spec: `quat_ensure_positive_w` (`math/quat_32.h`,
outside src) — forces the scalar component nonnegative by negating the
whole quaternion when `w` is negative (double-cover of unit quaternions). -/
def quat_ensure_positive_w (q : Quat_32) : Quat_32 :=
  if q.w < 0 then ⟨-q.x, -q.y, -q.z, -q.w⟩ else q

/-- Modelled from the spec: `safe_static_cast<uint16_t>` / `<uint32_t>`
(`core/memory.h`, outside src) — an asserting narrowing cast: a contract
failure (`none`) when the value does not fit the destination width. -/
def safe_static_cast (bits : ℕ) (v : ℤ) : Option ℕ :=
  if 0 ≤ v ∧ v < 2 ^ bits then some v.toNat else none

/-- One primitive store performed by a packer: a 4-byte float store or a
2-byte `uint16_t` store. -/
inductive Chunk where
  | f32 (v : ℚ)
  | u16 (v : ℕ)
deriving DecidableEq

/-- Byte width of one primitive store. -/
def Chunk.size : Chunk → ℕ
  | .f32 _ => 4
  | .u16 _ => 2

/-- Total byte width of a store sequence. -/
def chunkBytes (cs : List Chunk) : ℕ := (cs.map Chunk.size).sum

/-- `impl::write_rotation`: dispatch on the rotation format, producing the
sequence of primitive stores the source performs at the cursor.  The
source then advances the cursor by `get_rotation_size` unconditionally. -/
def write_rotation (rotation_format : RotationFormat8) (rotation : Quat_32) :
    Option (List Chunk) :=
  match rotation_format with
  | .Quat_128 =>
    some [.f32 rotation.x, .f32 rotation.y, .f32 rotation.z, .f32 rotation.w]
  | .Quat_96 =>
    let rotation_xyz := quat_ensure_positive_w rotation
    some [.f32 rotation_xyz.x, .f32 rotation_xyz.y, .f32 rotation_xyz.z]
  | .Quat_48 => do
    let rotation_xyz := quat_ensure_positive_w rotation
    let rotation_x ← quantize_signed_normalized rotation_xyz.x 16
    let rotation_y ← quantize_signed_normalized rotation_xyz.y 16
    let rotation_z ← quantize_signed_normalized rotation_xyz.z 16
    let d0 ← safe_static_cast 16 rotation_x
    let d1 ← safe_static_cast 16 rotation_y
    let d2 ← safe_static_cast 16 rotation_z
    some [.u16 d0, .u16 d1, .u16 d2]
  | .Quat_32 => do
    let rotation_xyz := quat_ensure_positive_w rotation
    let rotation_x ← quantize_signed_normalized rotation_xyz.x 11
    let rotation_y ← quantize_signed_normalized rotation_xyz.y 11
    let rotation_z ← quantize_signed_normalized rotation_xyz.z 10
    let rotation_u32 ← safe_static_cast 32
      ((rotation_x.toNat <<< 21 ||| rotation_y.toNat <<< 10 ||| rotation_z.toNat : ℕ) : ℤ)
    -- Written 2 bytes at a time to ensure safe alignment
    some [.u16 (rotation_u32 >>> 16), .u16 (rotation_u32 &&& 0xFFFF)]

/-- `impl::write_translation`: dispatch on the translation format. -/
def write_translation (translation_format : VectorFormat8) (translation : Vector4_32) :
    Option (List Chunk) :=
  match translation_format with
  | .Vector3_96 =>
    some [.f32 translation.x, .f32 translation.y, .f32 translation.z]
  | .Vector3_48 => do
    let translation_x ← quantize_signed_normalized translation.x 16
    let translation_y ← quantize_signed_normalized translation.y 16
    let translation_z ← quantize_signed_normalized translation.z 16
    let d0 ← safe_static_cast 16 translation_x
    let d1 ← safe_static_cast 16 translation_y
    let d2 ← safe_static_cast 16 translation_z
    some [.u16 d0, .u16 d1, .u16 d2]

/-- The four counters produced by `impl::get_num_animated_tracks`. -/
structure TrackCounts where
  num_constant_rotation_tracks : ℕ
  num_constant_translation_tracks : ℕ
  num_animated_rotation_tracks : ℕ
  num_animated_translation_tracks : ℕ
deriving DecidableEq

/-- One loop iteration of `impl::get_num_animated_tracks`: a non-default
track bumps its constant counter when `is_constant()`, otherwise its
animated counter; a default track bumps nothing. -/
def classify_bone (counts : TrackCounts) (bone : AnimatedBone) : TrackCounts :=
  let counts :=
    if !bone.rotation_track.is_default then
      if bone.rotation_track.is_constant then
        { counts with num_constant_rotation_tracks := counts.num_constant_rotation_tracks + 1 }
      else
        { counts with num_animated_rotation_tracks := counts.num_animated_rotation_tracks + 1 }
    else counts
  if !bone.translation_track.is_default then
    if bone.translation_track.is_constant then
      { counts with num_constant_translation_tracks := counts.num_constant_translation_tracks + 1 }
    else
      { counts with num_animated_translation_tracks := counts.num_animated_translation_tracks + 1 }
  else counts

/-- `impl::get_num_animated_tracks`: single pass over all bones. -/
def get_num_animated_tracks (clip : AnimationClip) : TrackCounts :=
  (List.range clip.num_bones).foldl
    (fun counts bone_index => classify_bone counts (clip.get_animated_bone bone_index))
    ⟨0, 0, 0, 0⟩

/-! ### Bitsets -/

/-- Modelled from the spec: `bitset_reset` (`core/bitset.h`, outside src) —
every word of the array is written to zero. -/
def bitset_reset (bitset_size : ℕ) : List ℕ :=
  List.replicate bitset_size 0

/-- Modelled from the spec: `bitset_set` (`core/bitset.h`, outside src) —
writes one bit of the packed 32-bit-word array; bit `k` lives in word
`k / 32`, most significant bit first within the word. -/
def bitset_set (bitset : List ℕ) (bit_offset : ℕ) (is_set : Bool) : List ℕ :=
  let offset := bit_offset / 32
  let mask := 1 <<< (31 - bit_offset % 32)
  let word := bitset.getD offset 0
  bitset.set offset (if is_set then word ||| mask else word &&& ((2 ^ 32 - 1) ^^^ mask))

/-- Reads back one bit of a packed bit array (decoder view of `bitset_set`). -/
def bitset_get (bitset : List ℕ) (bit_offset : ℕ) : Bool :=
  Nat.testBit (bitset.getD (bit_offset / 32) 0) (31 - bit_offset % 32)

/-- `impl::write_default_track_bitset`: reset all words, then for each bone
in index order set the running bit offset to the rotation track's
`is_default()` and the next to the translation track's `is_default()`. -/
def write_default_track_bitset (clip : AnimationClip) (bitset_size : ℕ) : List ℕ :=
  ((List.range clip.num_bones).foldl
    (fun st bone_index =>
      let bone := clip.get_animated_bone bone_index
      let is_rotation_default := bone.rotation_track.is_default
      let is_translation_default := bone.translation_track.is_default
      let st := (bitset_set st.1 st.2 is_rotation_default, st.2 + 1)
      (bitset_set st.1 st.2 is_translation_default, st.2 + 1))
    (bitset_reset bitset_size, 0)).1

/-- `impl::write_constant_track_bitset`: same traversal with `is_constant()`. -/
def write_constant_track_bitset (clip : AnimationClip) (bitset_size : ℕ) : List ℕ :=
  ((List.range clip.num_bones).foldl
    (fun st bone_index =>
      let bone := clip.get_animated_bone bone_index
      let is_rotation_constant := bone.rotation_track.is_constant
      let is_translation_constant := bone.translation_track.is_constant
      let st := (bitset_set st.1 st.2 is_rotation_constant, st.2 + 1)
      (bitset_set st.1 st.2 is_translation_constant, st.2 + 1))
    (bitset_reset bitset_size, 0)).1

/-! ### Payload writers -/

/-- Which of a bone's two tracks a payload write came from. -/
inductive TrackKind where
  | rotation
  | translation
deriving DecidableEq

/-- One sample written into a payload region: which track instance it came
from, the primitive stores performed, and the cursor advance (always the
fixed per-format size in the source). -/
structure Entry where
  sample_index : ℕ
  bone_index : ℕ
  kind : TrackKind
  data : List Chunk
  cursor_advance : ℕ

/-- The contract-violation kinds of the encoder (spec §7): invalid numeric
input to a quantizer / asserting cast, layout overrun, layout underrun. -/
inductive EncodeError where
  | invalid_input
  | wrote_too_much
  | wrote_too_little
deriving DecidableEq

/-- Loop body of `impl::write_constant_track_data` over the remaining bone
indices, carrying the byte cursor; the source checks
`constant_data <= constant_data_end` at the end of every iteration. -/
def write_constant_track_data_loop (rotation_format : RotationFormat8)
    (translation_format : VectorFormat8) (clip : AnimationClip)
    (constant_data_end : ℕ) :
    List ℕ → ℕ → Except EncodeError (List Entry × ℕ)
  | [], cursor => .ok ([], cursor)
  | bone_index :: rest, cursor => do
    let bone := clip.get_animated_bone bone_index
    let (rot_entries, cursor) ←
      if !bone.rotation_track.is_default && bone.rotation_track.is_constant then
        match write_rotation rotation_format (bone.rotation_track.get_sample 0) with
        | some cs =>
          Except.ok ([Entry.mk 0 bone_index .rotation cs (get_rotation_size rotation_format)],
            cursor + get_rotation_size rotation_format)
        | none => Except.error .invalid_input
      else Except.ok ([], cursor)
    let (tr_entries, cursor) ←
      if !bone.translation_track.is_default && bone.translation_track.is_constant then
        match write_translation translation_format (bone.translation_track.get_sample 0) with
        | some cs =>
          Except.ok ([Entry.mk 0 bone_index .translation cs (get_translation_size translation_format)],
            cursor + get_translation_size translation_format)
        | none => Except.error .invalid_input
      else Except.ok ([], cursor)
    if cursor ≤ constant_data_end then do
      let (rest_entries, final_cursor) ←
        write_constant_track_data_loop rotation_format translation_format clip
          constant_data_end rest cursor
      .ok (rot_entries ++ tr_entries ++ rest_entries, final_cursor)
    else .error .wrote_too_much

/-- `impl::write_constant_track_data`: iterate all bones, then assert the
cursor landed exactly on `constant_data_end`. -/
def write_constant_track_data (rotation_format : RotationFormat8)
    (translation_format : VectorFormat8) (clip : AnimationClip)
    (constant_data_size : ℕ) : Except EncodeError (List Entry) := do
  let (entries, cursor) ←
    write_constant_track_data_loop rotation_format translation_format clip
      constant_data_size (List.range clip.num_bones) 0
  if cursor = constant_data_size then .ok entries else .error .wrote_too_little

/-- Inner loop of `impl::write_animated_track_data`: one time sample, all
bones in index order; the overrun check sits at the end of every inner
iteration. -/
def write_animated_sample_loop (rotation_format : RotationFormat8)
    (translation_format : VectorFormat8) (clip : AnimationClip)
    (sample_index : ℕ) (animated_track_data_end : ℕ) :
    List ℕ → ℕ → Except EncodeError (List Entry × ℕ)
  | [], cursor => .ok ([], cursor)
  | bone_index :: rest, cursor => do
    let bone := clip.get_animated_bone bone_index
    let (rot_entries, cursor) ←
      if bone.rotation_track.is_animated then
        match write_rotation rotation_format (bone.rotation_track.get_sample sample_index) with
        | some cs =>
          Except.ok ([Entry.mk sample_index bone_index .rotation cs (get_rotation_size rotation_format)],
            cursor + get_rotation_size rotation_format)
        | none => Except.error .invalid_input
      else Except.ok ([], cursor)
    let (tr_entries, cursor) ←
      if bone.translation_track.is_animated then
        match write_translation translation_format (bone.translation_track.get_sample sample_index) with
        | some cs =>
          Except.ok ([Entry.mk sample_index bone_index .translation cs (get_translation_size translation_format)],
            cursor + get_translation_size translation_format)
        | none => Except.error .invalid_input
      else Except.ok ([], cursor)
    if cursor ≤ animated_track_data_end then do
      let (rest_entries, final_cursor) ←
        write_animated_sample_loop rotation_format translation_format clip
          sample_index animated_track_data_end rest cursor
      .ok (rot_entries ++ tr_entries ++ rest_entries, final_cursor)
    else .error .wrote_too_much

/-- Outer loop of `impl::write_animated_track_data` over the remaining
sample indices: data is sorted first by time, second by bone. -/
def write_animated_samples_loop (rotation_format : RotationFormat8)
    (translation_format : VectorFormat8) (clip : AnimationClip)
    (animated_track_data_end : ℕ) :
    List ℕ → ℕ → Except EncodeError (List Entry × ℕ)
  | [], cursor => .ok ([], cursor)
  | sample_index :: rest, cursor => do
    let (sample_entries, cursor) ←
      write_animated_sample_loop rotation_format translation_format clip
        sample_index animated_track_data_end (List.range clip.num_bones) cursor
    let (rest_entries, final_cursor) ←
      write_animated_samples_loop rotation_format translation_format clip
        animated_track_data_end rest cursor
    .ok (sample_entries ++ rest_entries, final_cursor)

/-- `impl::write_animated_track_data`: outer loop over sample indices,
inner loop over bone indices, then assert the cursor landed exactly on
`animated_track_data_end`. -/
def write_animated_track_data (rotation_format : RotationFormat8)
    (translation_format : VectorFormat8) (clip : AnimationClip)
    (animated_data_size : ℕ) : Except EncodeError (List Entry) := do
  let (entries, cursor) ←
    write_animated_samples_loop rotation_format translation_format clip
      animated_data_size (List.range clip.num_samples) 0
  if cursor = animated_data_size then .ok entries else .error .wrote_too_little

/-! ### Buffer planning (`compress_clip`) -/

/-- Modelled from the spec: `FullPrecisionConstants::NUM_TRACKS_PER_BONE`
(`common.h`, outside src) — one rotation and one translation track per bone. -/
def NUM_TRACKS_PER_BONE : ℕ := 2

/-- Modelled from the spec: `FullPrecisionConstants::BITSET_WIDTH`
(`common.h`, outside src) — bitsets are packed into 32-bit words. -/
def BITSET_WIDTH : ℕ := 32

/-- Modelled from the spec: `align_to` (`core/memory.h`, outside src) —
round `value` up to the next multiple of `alignment`. -/
def align_to (value alignment : ℕ) : ℕ :=
  ((value + alignment - 1) / alignment) * alignment

/-- Modelled from the spec: `sizeof(CompressedClip)` — the fixed-size
leading tag (buffer size plus codec family discriminant, padded); modelled
as 8 bytes, positive and 4-byte aligned. -/
def sizeof_CompressedClip : ℕ := 8

/-- Modelled from the spec: `sizeof(FullPrecisionHeader)` — bone count,
the two formats, sample count, sample rate, the two animated-track counts
and the four region offsets; modelled as 28 bytes, 4-byte aligned. -/
def sizeof_FullPrecisionHeader : ℕ := 28

/-- `compress_clip` line 292: size in bytes of the constant-track payload. -/
def constant_data_size_of (rotation_format : RotationFormat8)
    (translation_format : VectorFormat8)
    (num_constant_rotation_tracks num_constant_translation_tracks : ℕ) : ℕ :=
  get_rotation_size rotation_format * num_constant_rotation_tracks +
    get_translation_size translation_format * num_constant_translation_tracks

/-- `compress_clip` lines 293–295: size in bytes of the animated payload
(per-sample size multiplied by the sample count). -/
def animated_data_size_of (rotation_format : RotationFormat8)
    (translation_format : VectorFormat8)
    (num_animated_rotation_tracks num_animated_translation_tracks num_samples : ℕ) : ℕ :=
  (get_rotation_size rotation_format * num_animated_rotation_tracks +
    get_translation_size translation_format * num_animated_translation_tracks) * num_samples

/-- `compress_clip` line 297: word count of each track bitset. -/
def bitset_size_of (num_bones : ℕ) : ℕ :=
  (num_bones * NUM_TRACKS_PER_BONE + BITSET_WIDTH - 1) / BITSET_WIDTH

/-- `compress_clip` lines 299–306: the planned total buffer size,
accumulated in the source's statement order (`uint32_t` arithmetic is
exact here under the input contract, so it is modelled on `ℕ`). -/
def buffer_size_of (bitset_size constant_data_size animated_data_size : ℕ) : ℕ :=
  let buffer_size := 0
  let buffer_size := buffer_size + sizeof_CompressedClip
  let buffer_size := buffer_size + sizeof_FullPrecisionHeader
  let buffer_size := buffer_size + 4 * bitset_size      -- Default tracks bitset
  let buffer_size := buffer_size + 4 * bitset_size      -- Constant tracks bitset
  let buffer_size := buffer_size + constant_data_size   -- Constant track data
  let buffer_size := align_to buffer_size 4             -- Align animated data
  buffer_size + animated_data_size                      -- Animated track data

/-- The four region offsets `compress_clip` stores into the header
(lines 320–323), in the source's order. -/
structure HeaderOffsets where
  default_tracks_bitset_offset : ℕ
  constant_tracks_bitset_offset : ℕ
  constant_track_data_offset : ℕ
  track_data_offset : ℕ
deriving DecidableEq

/-- `compress_clip` lines 320–323: the offset fields as assigned. -/
def compute_header_offsets (bitset_size constant_data_size : ℕ) : HeaderOffsets :=
  let default_tracks_bitset_offset := sizeof_FullPrecisionHeader
  let constant_tracks_bitset_offset := default_tracks_bitset_offset + 4 * bitset_size
  let constant_track_data_offset := constant_tracks_bitset_offset + 4 * bitset_size
  let track_data_offset := align_to (constant_track_data_offset + constant_data_size) 4
  ⟨default_tracks_bitset_offset, constant_tracks_bitset_offset,
    constant_track_data_offset, track_data_offset⟩

/-- Modelled from the spec: absolute byte position, from the start of the
compressed buffer, where the default-tracks bitset region begins (the tag,
then the header, precede it). -/
def region_default_bitset_start : ℕ :=
  sizeof_CompressedClip + sizeof_FullPrecisionHeader

/-- Modelled from the spec: absolute start of the constant-tracks bitset
region. -/
def region_constant_bitset_start (bitset_size : ℕ) : ℕ :=
  region_default_bitset_start + 4 * bitset_size

/-- Modelled from the spec: absolute start of the constant-track payload
region. -/
def region_constant_data_start (bitset_size : ℕ) : ℕ :=
  region_constant_bitset_start bitset_size + 4 * bitset_size

/-- Modelled from the spec: absolute start of the animated payload region
(the constant payload is padded to a 4-byte boundary). -/
def region_track_data_start (bitset_size constant_data_size : ℕ) : ℕ :=
  align_to (region_constant_data_start bitset_size + constant_data_size) 4

/-! ### Range predicates for encoder inputs -/

/-- All four quaternion components lie in the signed normalized range. -/
def quat_in_unit_range (q : Quat_32) : Prop :=
  -1 ≤ q.x ∧ q.x ≤ 1 ∧ -1 ≤ q.y ∧ q.y ≤ 1 ∧ -1 ≤ q.z ∧ q.z ≤ 1 ∧ -1 ≤ q.w ∧ q.w ≤ 1

/-- All three vector components lie in the signed normalized range. -/
def vector_in_unit_range (v : Vector4_32) : Prop :=
  -1 ≤ v.x ∧ v.x ≤ 1 ∧ -1 ≤ v.y ∧ v.y ≤ 1 ∧ -1 ≤ v.z ∧ v.z ≤ 1

instance (q : Quat_32) : Decidable (quat_in_unit_range q) := by
  unfold quat_in_unit_range; infer_instance

instance (v : Vector4_32) : Decidable (vector_in_unit_range v) := by
  unfold vector_in_unit_range; infer_instance

/-- Every sample of every track of the clip is in the signed normalized
range (the valid-input condition under which no quantizer contract fires). -/
def clip_in_unit_range (clip : AnimationClip) : Prop :=
  ∀ i s, quat_in_unit_range ((clip.get_animated_bone i).rotation_track.get_sample s) ∧
    vector_in_unit_range ((clip.get_animated_bone i).translation_track.get_sample s)

/-! ### Quantizer lemmas -/

theorem one_le_two_pow_q (b : ℕ) : (1 : ℚ) ≤ 2 ^ b := by
  have h := Nat.one_le_two_pow (n := b)
  exact_mod_cast h

theorem symmetric_round_of_nonneg {x : ℚ} (h : 0 ≤ x) :
    symmetric_round x = ⌊x + 1/2⌋ := by
  simp [symmetric_round, h]

theorem quantize_unsigned_normalized_eq_some {x : ℚ} (b : ℕ)
    (h0 : 0 ≤ x) (h1 : x ≤ 1) :
    quantize_unsigned_normalized x b = some ⌊x * ((2 : ℚ) ^ b - 1) + 1/2⌋ := by
  have hm : (0 : ℚ) ≤ (2 : ℚ) ^ b - 1 := by
    have := one_le_two_pow_q b; linarith
  have harg : 0 ≤ x * ((2 : ℚ) ^ b - 1) := mul_nonneg h0 hm
  simp [quantize_unsigned_normalized, h0, h1, symmetric_round_of_nonneg harg]

theorem floor_pow_sub_one_add_half (b : ℕ) :
    ⌊((2 : ℚ) ^ b - 1) + 1/2⌋ = (2 : ℤ) ^ b - 1 := by
  have hcast : ((2 : ℚ) ^ b - 1) + 1/2 = 1/2 + (((2 : ℤ) ^ b - 1 : ℤ) : ℚ) := by
    push_cast; ring
  rw [hcast, Int.floor_add_int]
  norm_num

theorem quantize_unsigned_bounds {x : ℚ} (b : ℕ) (h0 : 0 ≤ x) (h1 : x ≤ 1) :
    ∃ r : ℤ, quantize_unsigned_normalized x b = some r ∧ 0 ≤ r ∧ r ≤ 2 ^ b - 1 := by
  refine ⟨⌊x * ((2 : ℚ) ^ b - 1) + 1/2⌋, quantize_unsigned_normalized_eq_some b h0 h1, ?_, ?_⟩
  · have hm : (0 : ℚ) ≤ (2 : ℚ) ^ b - 1 := by
      have := one_le_two_pow_q b; linarith
    have : (0 : ℚ) ≤ x * ((2 : ℚ) ^ b - 1) + 1/2 := by
      have := mul_nonneg h0 hm; linarith
    exact Int.le_floor.mpr (by exact_mod_cast this)
  · have hm : (0 : ℚ) ≤ (2 : ℚ) ^ b - 1 := by
      have := one_le_two_pow_q b; linarith
    have hle : x * ((2 : ℚ) ^ b - 1) + 1/2 ≤ ((2 : ℚ) ^ b - 1) + 1/2 := by
      nlinarith
    calc ⌊x * ((2 : ℚ) ^ b - 1) + 1/2⌋ ≤ ⌊((2 : ℚ) ^ b - 1) + 1/2⌋ := Int.floor_le_floor hle
    _ = (2 : ℤ) ^ b - 1 := floor_pow_sub_one_add_half b

theorem quantize_signed_bounds {x : ℚ} (b : ℕ) (h0 : -1 ≤ x) (h1 : x ≤ 1) :
    ∃ r : ℤ, quantize_signed_normalized x b = some r ∧ 0 ≤ r ∧ r ≤ 2 ^ b - 1 := by
  have hu0 : (0 : ℚ) ≤ x * (1/2) + 1/2 := by linarith
  have hu1 : x * (1/2) + 1/2 ≤ 1 := by linarith
  obtain ⟨r, hr, hr0, hr1⟩ := quantize_unsigned_bounds b hu0 hu1
  refine ⟨r, ?_, hr0, hr1⟩
  rw [quantize_signed_normalized, if_pos ⟨h0, h1⟩]
  exact hr

theorem safe_static_cast_eq_some {bits : ℕ} {v : ℤ} (h0 : 0 ≤ v) (h1 : v < 2 ^ bits) :
    safe_static_cast bits v = some v.toNat := by
  simp [safe_static_cast, h0, h1]

/-- C6: `quantize_unsigned_normalized(x, bits)` has precondition
`0.0 ≤ x ≤ 1.0` and, under it, returns `round(x × (2^bits − 1))` with
round-half-away-from-zero (the result is within 1/2 of the exact product);
a precondition violation is a reported contract failure, never a clamp;
and `quantize_unsigned_normalized(0, b) = 0`,
`quantize_unsigned_normalized(1, b) = 2^b − 1` for each supported width
`b ∈ {16, 11, 10}`. -/
theorem quantize_unsigned_normalized_contract :
    (∀ (x : ℚ) (b : ℕ), ¬(0 ≤ x ∧ x ≤ 1) → quantize_unsigned_normalized x b = none) ∧
    (∀ (x : ℚ) (b : ℕ), 0 ≤ x → x ≤ 1 →
      quantize_unsigned_normalized x b = some (symmetric_round (x * ((2 : ℚ) ^ b - 1))) ∧
      ∀ r : ℤ, quantize_unsigned_normalized x b = some r →
        |(r : ℚ) - x * ((2 : ℚ) ^ b - 1)| ≤ 1/2) ∧
    (∀ b : ℕ, b = 16 ∨ b = 11 ∨ b = 10 →
      quantize_unsigned_normalized 0 b = some 0 ∧
      quantize_unsigned_normalized 1 b = some (2 ^ b - 1)) := by
  refine ⟨?_, ?_, ?_⟩
  · intro x b hx
    simp only [quantize_unsigned_normalized, if_neg hx]
  · intro x b h0 h1
    have hm : (0 : ℚ) ≤ (2 : ℚ) ^ b - 1 := by
      have := one_le_two_pow_q b; linarith
    have harg : 0 ≤ x * ((2 : ℚ) ^ b - 1) := mul_nonneg h0 hm
    refine ⟨by simp [quantize_unsigned_normalized, h0, h1], ?_⟩
    intro r hr
    rw [quantize_unsigned_normalized_eq_some b h0 h1] at hr
    obtain rfl : (⌊x * ((2 : ℚ) ^ b - 1) + 1/2⌋ : ℤ) = r := by
      simpa using hr
    set y := x * ((2 : ℚ) ^ b - 1) with hy
    have hfl : (⌊y + 1/2⌋ : ℚ) ≤ y + 1/2 := Int.floor_le _
    have hfg : y + 1/2 < (⌊y + 1/2⌋ : ℚ) + 1 := Int.lt_floor_add_one _
    rw [abs_le]
    constructor <;> linarith
  · intro b _
    constructor
    · rw [quantize_unsigned_normalized_eq_some b le_rfl zero_le_one]
      norm_num
    · rw [quantize_unsigned_normalized_eq_some b zero_le_one le_rfl]
      rw [one_mul, floor_pow_sub_one_add_half b]

/-- Closed instance of the C6 theorem: the precondition is violated at
`x = 2`, and satisfied at `x = 1` with the claimed extreme value. -/
theorem quantize_unsigned_normalized_contract_witness :
    quantize_unsigned_normalized 2 16 = none ∧
    quantize_unsigned_normalized 1 16 = some 65535 := by
  constructor
  · exact quantize_unsigned_normalized_contract.1 2 16 (by norm_num)
  · have h := (quantize_unsigned_normalized_contract.2.2 16 (Or.inl rfl)).2
    rw [h]; norm_num

/-! ### Packer lemmas -/

theorem quat_ensure_positive_w_range {q : Quat_32} (h : quat_in_unit_range q) :
    quat_in_unit_range (quat_ensure_positive_w q) := by
  obtain ⟨h1, h2, h3, h4, h5, h6, h7, h8⟩ := h
  unfold quat_ensure_positive_w quat_in_unit_range
  split
  · dsimp only
    exact ⟨by linarith, by linarith, by linarith, by linarith,
      by linarith, by linarith, by linarith, by linarith⟩
  · exact ⟨h1, h2, h3, h4, h5, h6, h7, h8⟩

theorem quat_ensure_positive_w_nonneg (q : Quat_32) :
    0 ≤ (quat_ensure_positive_w q).w := by
  unfold quat_ensure_positive_w
  split
  · dsimp only
    linarith
  · linarith

theorem pack_11_11_10 {y z : ℕ} (x : ℕ) (hy : y < 2 ^ 11) (hz : z < 2 ^ 10) :
    x <<< 21 ||| y <<< 10 ||| z = x * 2 ^ 21 + y * 2 ^ 10 + z := by
  have hx21 : x <<< 21 = 2 ^ 21 * x := by rw [Nat.shiftLeft_eq]; ring
  have hy10 : y <<< 10 = 2 ^ 10 * y := by rw [Nat.shiftLeft_eq]; ring
  have hylt : 2 ^ 10 * y < 2 ^ 21 := by
    norm_num at hy ⊢
    omega
  have h2 : x <<< 21 ||| y <<< 10 = 2 ^ 21 * x + 2 ^ 10 * y := by
    rw [hx21, hy10, ← Nat.mul_add_lt_is_or hylt x]
  have h3 : 2 ^ 21 * x + 2 ^ 10 * y = 2 ^ 10 * (2 ^ 11 * x + y) := by ring
  rw [h2, h3, ← Nat.mul_add_lt_is_or hz (2 ^ 11 * x + y)]
  ring

theorem pack_lt_two_pow_32 {x y z : ℕ} (hx : x < 2 ^ 11) (hy : y < 2 ^ 11)
    (hz : z < 2 ^ 10) : x <<< 21 ||| y <<< 10 ||| z < 2 ^ 32 := by
  rw [pack_11_11_10 x hy hz]
  have h1 : x * 2 ^ 21 ≤ (2 ^ 11 - 1) * 2 ^ 21 := by
    have : x ≤ 2 ^ 11 - 1 := by omega
    exact Nat.mul_le_mul_right _ this
  have h2 : y * 2 ^ 10 ≤ (2 ^ 11 - 1) * 2 ^ 10 := by
    have : y ≤ 2 ^ 11 - 1 := by omega
    exact Nat.mul_le_mul_right _ this
  norm_num at h1 h2 ⊢
  omega

/-- Quantization of the three axes of an in-range quaternion at the
`Quat_48` widths: all three succeed with 16-bit results. -/
theorem write_rotation_48_eq {q : Quat_32} (h : quat_in_unit_range q) :
    ∃ rx ry rz : ℤ,
      quantize_signed_normalized (quat_ensure_positive_w q).x 16 = some rx ∧
      quantize_signed_normalized (quat_ensure_positive_w q).y 16 = some ry ∧
      quantize_signed_normalized (quat_ensure_positive_w q).z 16 = some rz ∧
      rx.toNat < 2 ^ 16 ∧ ry.toNat < 2 ^ 16 ∧ rz.toNat < 2 ^ 16 ∧
      write_rotation .Quat_48 q =
        some [.u16 rx.toNat, .u16 ry.toNat, .u16 rz.toNat] := by
  obtain ⟨h1, h2, h3, h4, h5, h6, _, _⟩ := quat_ensure_positive_w_range h
  obtain ⟨rx, hrx, hrx0, hrx1⟩ := quantize_signed_bounds 16 h1 h2
  obtain ⟨ry, hry, hry0, hry1⟩ := quantize_signed_bounds 16 h3 h4
  obtain ⟨rz, hrz, hrz0, hrz1⟩ := quantize_signed_bounds 16 h5 h6
  have hrxlt : rx < (2 : ℤ) ^ 16 := by omega
  have hrylt : ry < (2 : ℤ) ^ 16 := by omega
  have hrzlt : rz < (2 : ℤ) ^ 16 := by omega
  have hnx : rx.toNat < 2 ^ 16 := by omega
  have hny : ry.toNat < 2 ^ 16 := by omega
  have hnz : rz.toNat < 2 ^ 16 := by omega
  refine ⟨rx, ry, rz, hrx, hry, hrz, hnx, hny, hnz, ?_⟩
  simp only [write_rotation, hrx, hry, hrz, Option.bind_eq_bind, Option.some_bind,
    safe_static_cast_eq_some hrx0 hrxlt,
    safe_static_cast_eq_some hry0 hrylt,
    safe_static_cast_eq_some hrz0 hrzlt]

/-- Quantization of the three axes of an in-range quaternion at the
`Quat_32` widths (11/11/10), the 32-bit pack and the two 16-bit halves. -/
theorem write_rotation_32_eq {q : Quat_32} (h : quat_in_unit_range q) :
    ∃ rx ry rz : ℤ,
      quantize_signed_normalized (quat_ensure_positive_w q).x 11 = some rx ∧
      quantize_signed_normalized (quat_ensure_positive_w q).y 11 = some ry ∧
      quantize_signed_normalized (quat_ensure_positive_w q).z 10 = some rz ∧
      rx.toNat < 2 ^ 11 ∧ ry.toNat < 2 ^ 11 ∧ rz.toNat < 2 ^ 10 ∧
      write_rotation .Quat_32 q =
        some [.u16 ((rx.toNat <<< 21 ||| ry.toNat <<< 10 ||| rz.toNat) >>> 16),
          .u16 ((rx.toNat <<< 21 ||| ry.toNat <<< 10 ||| rz.toNat) &&& 0xFFFF)] := by
  obtain ⟨h1, h2, h3, h4, h5, h6, _, _⟩ := quat_ensure_positive_w_range h
  obtain ⟨rx, hrx, hrx0, hrx1⟩ := quantize_signed_bounds 11 h1 h2
  obtain ⟨ry, hry, hry0, hry1⟩ := quantize_signed_bounds 11 h3 h4
  obtain ⟨rz, hrz, hrz0, hrz1⟩ := quantize_signed_bounds 10 h5 h6
  have hxlt : rx.toNat < 2 ^ 11 := by omega
  have hylt : ry.toNat < 2 ^ 11 := by omega
  have hzlt : rz.toNat < 2 ^ 10 := by omega
  have hpack : (rx.toNat <<< 21 ||| ry.toNat <<< 10 ||| rz.toNat) < 2 ^ 32 :=
    pack_lt_two_pow_32 hxlt hylt hzlt
  refine ⟨rx, ry, rz, hrx, hry, hrz, hxlt, hylt, hzlt, ?_⟩
  have hcast : safe_static_cast 32
      ((rx.toNat <<< 21 ||| ry.toNat <<< 10 ||| rz.toNat : ℕ) : ℤ) =
      some (rx.toNat <<< 21 ||| ry.toNat <<< 10 ||| rz.toNat) := by
    rw [safe_static_cast_eq_some (by positivity) (by exact_mod_cast hpack)]
    simp
  simp only [write_rotation, Option.bind_eq_bind]
  rw [hrx, Option.some_bind, hry, Option.some_bind, hrz, Option.some_bind, hcast,
    Option.some_bind]

/-- Quantization of the three components of an in-range translation at the
`Vector3_48` widths: all three succeed with 16-bit results. -/
theorem write_translation_48_eq {v : Vector4_32} (h : vector_in_unit_range v) :
    ∃ tx ty tz : ℤ,
      quantize_signed_normalized v.x 16 = some tx ∧
      quantize_signed_normalized v.y 16 = some ty ∧
      quantize_signed_normalized v.z 16 = some tz ∧
      tx.toNat < 2 ^ 16 ∧ ty.toNat < 2 ^ 16 ∧ tz.toNat < 2 ^ 16 ∧
      write_translation .Vector3_48 v =
        some [.u16 tx.toNat, .u16 ty.toNat, .u16 tz.toNat] := by
  obtain ⟨h1, h2, h3, h4, h5, h6⟩ := h
  obtain ⟨tx, htx, htx0, htx1⟩ := quantize_signed_bounds 16 h1 h2
  obtain ⟨ty, hty, hty0, hty1⟩ := quantize_signed_bounds 16 h3 h4
  obtain ⟨tz, htz, htz0, htz1⟩ := quantize_signed_bounds 16 h5 h6
  have htxlt : tx < (2 : ℤ) ^ 16 := by omega
  have htylt : ty < (2 : ℤ) ^ 16 := by omega
  have htzlt : tz < (2 : ℤ) ^ 16 := by omega
  have hnx : tx.toNat < 2 ^ 16 := by omega
  have hny : ty.toNat < 2 ^ 16 := by omega
  have hnz : tz.toNat < 2 ^ 16 := by omega
  refine ⟨tx, ty, tz, htx, hty, htz, hnx, hny, hnz, ?_⟩
  simp only [write_translation, htx, hty, htz, Option.bind_eq_bind, Option.some_bind,
    safe_static_cast_eq_some htx0 htxlt,
    safe_static_cast_eq_some hty0 htylt,
    safe_static_cast_eq_some htz0 htzlt]

/-- Every rotation packer call on an in-range quaternion succeeds and its
stores cover exactly `get_rotation_size` bytes (the cursor advance). -/
theorem write_rotation_size_eq (rotation_format : RotationFormat8) {q : Quat_32}
    (h : quat_in_unit_range q) :
    ∃ cs, write_rotation rotation_format q = some cs ∧
      chunkBytes cs = get_rotation_size rotation_format := by
  cases rotation_format with
  | Quat_128 => exact ⟨_, rfl, rfl⟩
  | Quat_96 => exact ⟨_, rfl, rfl⟩
  | Quat_48 =>
    obtain ⟨rx, ry, rz, _, _, _, _, _, _, heq⟩ := write_rotation_48_eq h
    exact ⟨_, heq, rfl⟩
  | Quat_32 =>
    obtain ⟨rx, ry, rz, _, _, _, _, _, _, heq⟩ := write_rotation_32_eq h
    exact ⟨_, heq, rfl⟩

/-- Every translation packer call on an in-range vector succeeds and its
stores cover exactly `get_translation_size` bytes. -/
theorem write_translation_size_eq (translation_format : VectorFormat8) {v : Vector4_32}
    (h : vector_in_unit_range v) :
    ∃ cs, write_translation translation_format v = some cs ∧
      chunkBytes cs = get_translation_size translation_format := by
  cases translation_format with
  | Vector3_96 => exact ⟨_, rfl, rfl⟩
  | Vector3_48 =>
    obtain ⟨tx, ty, tz, _, _, _, _, _, _, heq⟩ := write_translation_48_eq h
    exact ⟨_, heq, rfl⟩

/-- C5: for the reduced-width rotation formats `write_rotation` first
forces the scalar component nonnegative and keeps the remaining three
axes; `Quat_48` stores the three axes quantized signed-normalized to
16 bits as three 16-bit values; `Quat_32` quantizes to 11/11/10 bits,
packs `x <<< 21 ||| y <<< 10 ||| z` (axis x in the highest bits, shown by
the recovery equation) into one 32-bit word and writes it as two 16-bit
halves, high half first, instead of one 32-bit store. -/
theorem write_rotation_reduced_width_packing (q : Quat_32) (h : quat_in_unit_range q) :
    0 ≤ (quat_ensure_positive_w q).w ∧
    (∃ rx ry rz : ℤ,
      quantize_signed_normalized (quat_ensure_positive_w q).x 16 = some rx ∧
      quantize_signed_normalized (quat_ensure_positive_w q).y 16 = some ry ∧
      quantize_signed_normalized (quat_ensure_positive_w q).z 16 = some rz ∧
      write_rotation .Quat_48 q =
        some [.u16 rx.toNat, .u16 ry.toNat, .u16 rz.toNat]) ∧
    (∃ rx ry rz : ℤ, ∃ hi lo : ℕ,
      quantize_signed_normalized (quat_ensure_positive_w q).x 11 = some rx ∧
      quantize_signed_normalized (quat_ensure_positive_w q).y 11 = some ry ∧
      quantize_signed_normalized (quat_ensure_positive_w q).z 10 = some rz ∧
      write_rotation .Quat_32 q = some [.u16 hi, .u16 lo] ∧
      hi = (rx.toNat <<< 21 ||| ry.toNat <<< 10 ||| rz.toNat) >>> 16 ∧
      lo = (rx.toNat <<< 21 ||| ry.toNat <<< 10 ||| rz.toNat) &&& 0xFFFF ∧
      hi < 2 ^ 16 ∧ lo < 2 ^ 16 ∧
      hi * 2 ^ 16 + lo = rx.toNat * 2 ^ 21 + ry.toNat * 2 ^ 10 + rz.toNat) := by
  refine ⟨quat_ensure_positive_w_nonneg q, ?_, ?_⟩
  · obtain ⟨rx, ry, rz, hx, hy, hz, _, _, _, heq⟩ := write_rotation_48_eq h
    exact ⟨rx, ry, rz, hx, hy, hz, heq⟩
  · obtain ⟨rx, ry, rz, hx, hy, hz, hxlt, hylt, hzlt, heq⟩ := write_rotation_32_eq h
    have hpack : (rx.toNat <<< 21 ||| ry.toNat <<< 10 ||| rz.toNat) < 2 ^ 32 :=
      pack_lt_two_pow_32 hxlt hylt hzlt
    refine ⟨rx, ry, rz, _, _, hx, hy, hz, heq, rfl, rfl, ?_, ?_, ?_⟩
    · rw [Nat.shiftRight_eq_div_pow]
      have : (rx.toNat <<< 21 ||| ry.toNat <<< 10 ||| rz.toNat) / 2 ^ 16 < 2 ^ 16 := by
        apply Nat.div_lt_of_lt_mul
        calc (rx.toNat <<< 21 ||| ry.toNat <<< 10 ||| rz.toNat) < 2 ^ 32 := hpack
        _ = 2 ^ 16 * 2 ^ 16 := by norm_num
      exact this
    · have : (0xFFFF : ℕ) = 2 ^ 16 - 1 := by norm_num
      rw [this, Nat.and_pow_two_sub_one_eq_mod]
      exact Nat.mod_lt _ (by norm_num)
    · have hand : (rx.toNat <<< 21 ||| ry.toNat <<< 10 ||| rz.toNat) &&& 0xFFFF =
          (rx.toNat <<< 21 ||| ry.toNat <<< 10 ||| rz.toNat) % 2 ^ 16 := by
        have : (0xFFFF : ℕ) = 2 ^ 16 - 1 := by norm_num
        rw [this, Nat.and_pow_two_sub_one_eq_mod]
      rw [hand, Nat.shiftRight_eq_div_pow, ← pack_11_11_10 rx.toNat hylt hzlt]
      omega

/-- Closed instance of the C5 theorem at the identity quaternion. -/
theorem write_rotation_reduced_width_packing_witness :
    0 ≤ (quat_ensure_positive_w ⟨0, 0, 0, 1⟩).w :=
  (write_rotation_reduced_width_packing ⟨0, 0, 0, 1⟩ (by decide)).1

/-- C10: for every input in the signed normalized range and every bit
width used by the packers (16, 11, 10), `quantize_signed_normalized`
returns a value in `[0, 2^b − 1]`; hence the narrowing `uint16_t` casts
in the `Quat_48`, `Vector3_48` and `Quat_32` paths never truncate (the
packers succeed, no cast contract fires), and the packed
`x <<< 21 ||| y <<< 10 ||| z` always fits in 32 bits. -/
theorem quantize_signed_normalized_no_truncation :
    (∀ (x : ℚ) (b : ℕ), b = 16 ∨ b = 11 ∨ b = 10 → -1 ≤ x → x ≤ 1 →
      ∃ r : ℤ, quantize_signed_normalized x b = some r ∧ 0 ≤ r ∧ r ≤ 2 ^ b - 1) ∧
    (∀ x y z : ℕ, x < 2 ^ 11 → y < 2 ^ 11 → z < 2 ^ 10 →
      x <<< 21 ||| y <<< 10 ||| z < 2 ^ 32) ∧
    (∀ q : Quat_32, quat_in_unit_range q →
      (write_rotation .Quat_48 q).isSome = true ∧
      (write_rotation .Quat_32 q).isSome = true) ∧
    (∀ v : Vector4_32, vector_in_unit_range v →
      (write_translation .Vector3_48 v).isSome = true) := by
  refine ⟨?_, ?_, ?_, ?_⟩
  · intro x b _ h0 h1
    exact quantize_signed_bounds b h0 h1
  · intro x y z hx hy hz
    exact pack_lt_two_pow_32 hx hy hz
  · intro q h
    obtain ⟨_, _, _, _, _, _, _, _, _, h48⟩ := write_rotation_48_eq h
    obtain ⟨_, _, _, _, _, _, _, _, _, h32⟩ := write_rotation_32_eq h
    exact ⟨by rw [h48]; rfl, by rw [h32]; rfl⟩
  · intro v h
    obtain ⟨_, _, _, _, _, _, _, _, _, h48⟩ := write_translation_48_eq h
    rw [h48]; rfl

/-! ### Track classifier -/

/-- At most one of the three classification predicates of a track holds. -/
def exclusive3 (a b c : Bool) : Prop :=
  (a && b) = false ∧ (a && c) = false ∧ (b && c) = false

/-- At least one of the three classification predicates of a track holds. -/
def exhaustive3 (a b c : Bool) : Prop := (a || b || c) = true

/-- The spec's input contract: for every track of every bone the
`is_default` / `is_constant` / `is_animated` predicates are mutually
exclusive. -/
def clip_tracks_exclusive (clip : AnimationClip) : Prop :=
  ∀ i,
    exclusive3 (clip.get_animated_bone i).rotation_track.is_default
      (clip.get_animated_bone i).rotation_track.is_constant
      (clip.get_animated_bone i).rotation_track.is_animated ∧
    exclusive3 (clip.get_animated_bone i).translation_track.is_default
      (clip.get_animated_bone i).translation_track.is_constant
      (clip.get_animated_bone i).translation_track.is_animated

/-- The spec's input contract: for every track of every bone at least one
of the three predicates holds. -/
def clip_tracks_exhaustive (clip : AnimationClip) : Prop :=
  ∀ i,
    exhaustive3 (clip.get_animated_bone i).rotation_track.is_default
      (clip.get_animated_bone i).rotation_track.is_constant
      (clip.get_animated_bone i).rotation_track.is_animated ∧
    exhaustive3 (clip.get_animated_bone i).translation_track.is_default
      (clip.get_animated_bone i).translation_track.is_constant
      (clip.get_animated_bone i).translation_track.is_animated

/-- Number of bones whose rotation track reports `is_default()`. -/
def num_default_rotation_tracks (clip : AnimationClip) : ℕ :=
  ((List.range clip.num_bones).filter
    (fun i => (clip.get_animated_bone i).rotation_track.is_default)).length

/-- Number of bones whose translation track reports `is_default()`. -/
def num_default_translation_tracks (clip : AnimationClip) : ℕ :=
  ((List.range clip.num_bones).filter
    (fun i => (clip.get_animated_bone i).translation_track.is_default)).length

theorem classify_bone_counts (c : TrackCounts) (bone : AnimatedBone) :
    (classify_bone c bone).num_constant_rotation_tracks =
      c.num_constant_rotation_tracks +
        (if !bone.rotation_track.is_default && bone.rotation_track.is_constant then 1 else 0) ∧
    (classify_bone c bone).num_animated_rotation_tracks =
      c.num_animated_rotation_tracks +
        (if !bone.rotation_track.is_default && !bone.rotation_track.is_constant then 1 else 0) ∧
    (classify_bone c bone).num_constant_translation_tracks =
      c.num_constant_translation_tracks +
        (if !bone.translation_track.is_default && bone.translation_track.is_constant then 1 else 0) ∧
    (classify_bone c bone).num_animated_translation_tracks =
      c.num_animated_translation_tracks +
        (if !bone.translation_track.is_default && !bone.translation_track.is_constant then 1 else 0) := by
  unfold classify_bone
  cases hrd : bone.rotation_track.is_default <;>
    cases hrc : bone.rotation_track.is_constant <;>
      cases htd : bone.translation_track.is_default <;>
        cases htc : bone.translation_track.is_constant <;>
          simp

theorem classifier_rotation_partition_aux (clip : AnimationClip) (l : List ℕ)
    (c : TrackCounts) :
    (l.foldl (fun counts i => classify_bone counts (clip.get_animated_bone i)) c).num_constant_rotation_tracks +
      (l.foldl (fun counts i => classify_bone counts (clip.get_animated_bone i)) c).num_animated_rotation_tracks +
      (l.filter (fun i => (clip.get_animated_bone i).rotation_track.is_default)).length =
    c.num_constant_rotation_tracks + c.num_animated_rotation_tracks + l.length := by
  induction l generalizing c with
  | nil => simp
  | cons i rest ih =>
    simp only [List.foldl_cons, List.filter_cons, List.length_cons]
    obtain ⟨h1, h2, _, _⟩ := classify_bone_counts c (clip.get_animated_bone i)
    have ihr := ih (classify_bone c (clip.get_animated_bone i))
    cases hrd : (clip.get_animated_bone i).rotation_track.is_default <;>
      cases hrc : (clip.get_animated_bone i).rotation_track.is_constant <;>
        simp only [hrd, hrc] at h1 h2 ⊢ <;>
          simp at h1 h2 ihr ⊢ <;> omega

theorem classifier_translation_partition_aux (clip : AnimationClip) (l : List ℕ)
    (c : TrackCounts) :
    (l.foldl (fun counts i => classify_bone counts (clip.get_animated_bone i)) c).num_constant_translation_tracks +
      (l.foldl (fun counts i => classify_bone counts (clip.get_animated_bone i)) c).num_animated_translation_tracks +
      (l.filter (fun i => (clip.get_animated_bone i).translation_track.is_default)).length =
    c.num_constant_translation_tracks + c.num_animated_translation_tracks + l.length := by
  induction l generalizing c with
  | nil => simp
  | cons i rest ih =>
    simp only [List.foldl_cons, List.filter_cons, List.length_cons]
    obtain ⟨_, _, h3, h4⟩ := classify_bone_counts c (clip.get_animated_bone i)
    have ihr := ih (classify_bone c (clip.get_animated_bone i))
    cases htd : (clip.get_animated_bone i).translation_track.is_default <;>
      cases htc : (clip.get_animated_bone i).translation_track.is_constant <;>
        simp only [htd, htc] at h3 h4 ⊢ <;>
          simp at h3 h4 ihr ⊢ <;> omega

/-- C9: the single-pass classifier returns four counters; a default track
increments neither counter, so per kind the constant count plus the
animated count plus the number of default tracks equals the bone count,
for every clip with mutually exclusive and exhaustive predicates. -/
theorem track_classifier_partition (clip : AnimationClip)
    (hx : clip_tracks_exclusive clip) (he : clip_tracks_exhaustive clip) :
    (get_num_animated_tracks clip).num_constant_rotation_tracks +
      (get_num_animated_tracks clip).num_animated_rotation_tracks +
      num_default_rotation_tracks clip = clip.num_bones ∧
    (get_num_animated_tracks clip).num_constant_translation_tracks +
      (get_num_animated_tracks clip).num_animated_translation_tracks +
      num_default_translation_tracks clip = clip.num_bones := by
  constructor
  · have h := classifier_rotation_partition_aux clip (List.range clip.num_bones) ⟨0, 0, 0, 0⟩
    simpa [get_num_animated_tracks, num_default_rotation_tracks] using h
  · have h := classifier_translation_partition_aux clip (List.range clip.num_bones) ⟨0, 0, 0, 0⟩
    simpa [get_num_animated_tracks, num_default_translation_tracks] using h

/-! ### Example inputs for closed instances -/

/-- Identity-rotation sample used by the example clips. -/
def exampleQuat : Quat_32 := ⟨0, 0, 0, 1⟩

/-- Zero-translation sample used by the example clips. -/
def exampleVec : Vector4_32 := ⟨0, 0, 0⟩

/-- Example bone: constant rotation track, default translation track. -/
def exampleBone0 : AnimatedBone :=
  ⟨⟨false, true, false, fun _ => exampleQuat⟩,
   ⟨true, false, false, fun _ => exampleVec⟩⟩

/-- Example bone: animated rotation track, animated translation track. -/
def exampleBone1 : AnimatedBone :=
  ⟨⟨false, false, true, fun _ => exampleQuat⟩,
   ⟨false, false, true, fun _ => exampleVec⟩⟩

/-- Example clip with two bones and two samples. -/
def exampleClip : AnimationClip :=
  ⟨2, 2, 30, fun bone_index => match bone_index with
    | 0 => exampleBone0
    | _ => exampleBone1⟩

/-- Closed instance of the C9 theorem on the two-bone example clip. -/
theorem track_classifier_partition_witness :
    (get_num_animated_tracks exampleClip).num_constant_rotation_tracks +
      (get_num_animated_tracks exampleClip).num_animated_rotation_tracks +
      num_default_rotation_tracks exampleClip = exampleClip.num_bones ∧
    (get_num_animated_tracks exampleClip).num_constant_translation_tracks +
      (get_num_animated_tracks exampleClip).num_animated_translation_tracks +
      num_default_translation_tracks exampleClip = exampleClip.num_bones :=
  track_classifier_partition exampleClip
    (by intro i; rcases i with _ | i <;> exact ⟨⟨rfl, rfl, rfl⟩, ⟨rfl, rfl, rfl⟩⟩)
    (by intro i; rcases i with _ | i <;> exact ⟨rfl, rfl⟩)

/-! ### Header offsets and buffer size planning -/

theorem align_to_add_mul_left (k x : ℕ) : align_to (4 * k + x) 4 = 4 * k + align_to x 4 := by
  unfold align_to
  omega

theorem compute_header_offsets_eq (bitset_size constant_data_size : ℕ) :
    compute_header_offsets bitset_size constant_data_size =
      ⟨sizeof_FullPrecisionHeader,
        sizeof_FullPrecisionHeader + 4 * bitset_size,
        sizeof_FullPrecisionHeader + 4 * bitset_size + 4 * bitset_size,
        align_to (sizeof_FullPrecisionHeader + 4 * bitset_size + 4 * bitset_size +
          constant_data_size) 4⟩ := rfl

/-- C1 counterexample: with one bitset word and no constant data the
stored `default_tracks_bitset_offset` equals `sizeof(FullPrecisionHeader)`
(28 in the model), not `sizeof(CompressedClip) + sizeof(FullPrecisionHeader)`
(36): the stored offsets do not account for the leading tag, so they are
not absolute offsets from the start of the buffer. -/
theorem header_offsets_not_buffer_absolute :
    ¬ ((compute_header_offsets 1 0).default_tracks_bitset_offset =
      sizeof_CompressedClip + sizeof_FullPrecisionHeader) := by
  decide

/-- C1 (amended): the four region offsets stored by `compress_clip` are
relative byte offsets from the start of the header (the first byte after
the leading tag): `default_tracks_bitset_offset = sizeof(header)`, and
adding `sizeof(CompressedClip)` to each stored offset yields the region's
absolute position from the start of the buffer. -/
theorem header_offsets_are_header_relative (bitset_size constant_data_size : ℕ) :
    (compute_header_offsets bitset_size constant_data_size).default_tracks_bitset_offset =
      sizeof_FullPrecisionHeader ∧
    sizeof_CompressedClip +
        (compute_header_offsets bitset_size constant_data_size).default_tracks_bitset_offset =
      region_default_bitset_start ∧
    sizeof_CompressedClip +
        (compute_header_offsets bitset_size constant_data_size).constant_tracks_bitset_offset =
      region_constant_bitset_start bitset_size ∧
    sizeof_CompressedClip +
        (compute_header_offsets bitset_size constant_data_size).constant_track_data_offset =
      region_constant_data_start bitset_size ∧
    sizeof_CompressedClip +
        (compute_header_offsets bitset_size constant_data_size).track_data_offset =
      region_track_data_start bitset_size constant_data_size := by
  simp only [compute_header_offsets_eq, region_default_bitset_start,
    region_constant_bitset_start, region_constant_data_start, region_track_data_start,
    sizeof_CompressedClip, sizeof_FullPrecisionHeader, align_to]
  refine ⟨trivial, trivial, by omega, by omega, by omega⟩

/-- C2: the planned total buffer size follows the spec formula exactly:
the bitset word count is the least number of 32-bit words holding
`2 × bone_count` bits (i.e. `ceil(2 × bone_count / 32)`), the constant and
animated byte counts are as stated, and the total is
`sizeof(tag) + sizeof(header) + 2 × bitset_word_count × 4 + constant_bytes`
rounded up to a 4-byte boundary and only then increased by the animated
bytes. -/
theorem buffer_size_formula_spec (rotation_format : RotationFormat8)
    (translation_format : VectorFormat8)
    (ncr nct nar nat2 num_bones num_samples : ℕ) :
    (2 * num_bones ≤ 32 * bitset_size_of num_bones ∧
      ∀ m, 2 * num_bones ≤ 32 * m → bitset_size_of num_bones ≤ m) ∧
    buffer_size_of (bitset_size_of num_bones)
        (constant_data_size_of rotation_format translation_format ncr nct)
        (animated_data_size_of rotation_format translation_format nar nat2 num_samples) =
      align_to (sizeof_CompressedClip + sizeof_FullPrecisionHeader +
          2 * bitset_size_of num_bones * 4 +
          constant_data_size_of rotation_format translation_format ncr nct) 4 +
        (get_rotation_size rotation_format * nar +
          get_translation_size translation_format * nat2) * num_samples := by
  constructor
  · constructor
    · simp only [bitset_size_of, NUM_TRACKS_PER_BONE, BITSET_WIDTH]
      omega
    · intro m hm
      simp only [bitset_size_of, NUM_TRACKS_PER_BONE, BITSET_WIDTH]
      omega
  · simp only [buffer_size_of, constant_data_size_of, animated_data_size_of, align_to]
    omega

/-- Closed instance of the C2 theorem: minimality of the bitset word count
at 3 bones. -/
theorem buffer_size_formula_spec_witness : bitset_size_of 3 ≤ 1 :=
  (buffer_size_formula_spec .Quat_48 .Vector3_96 0 0 0 0 3 0).1.2 1 (by decide)

/-! ### Bitset lemmas -/

theorem bitset_set_length (bitset : List ℕ) (bit_offset : ℕ) (v : Bool) :
    (bitset_set bitset bit_offset v).length = bitset.length := by
  simp [bitset_set]

theorem getD_replicate_zero (n j : ℕ) : (List.replicate n (0 : ℕ)).getD j 0 = 0 := by
  rw [List.getD_eq_getElem?_getD, List.getElem?_replicate]
  split <;> rfl

theorem bitset_get_reset (n k : ℕ) : bitset_get (bitset_reset n) k = false := by
  simp [bitset_get, bitset_reset, getD_replicate_zero]

theorem getD_set_self {l : List ℕ} {i : ℕ} (h : i < l.length) (a : ℕ) :
    (l.set i a).getD i 0 = a := by
  rw [List.getD_eq_getElem?_getD, List.getElem?_set_self h]
  rfl

theorem getD_set_ne (l : List ℕ) {i j : ℕ} (h : i ≠ j) (a : ℕ) :
    (l.set i a).getD j 0 = l.getD j 0 := by
  rw [List.getD_eq_getElem?_getD, List.getElem?_set_ne h, ← List.getD_eq_getElem?_getD]

theorem bitset_get_set_self {bitset : List ℕ} {bit_offset : ℕ}
    (h : bit_offset < 32 * bitset.length) (v : Bool) :
    bitset_get (bitset_set bitset bit_offset v) bit_offset = v := by
  have hlt : bit_offset / 32 < bitset.length := by omega
  unfold bitset_get bitset_set
  rw [getD_set_self hlt]
  have hb : 31 - bit_offset % 32 < 32 := by omega
  have hmask : (1 <<< (31 - bit_offset % 32)) = 2 ^ (31 - bit_offset % 32) := by
    rw [Nat.shiftLeft_eq, one_mul]
  cases v with
  | true =>
    simp [hmask, Nat.testBit_lor, Nat.testBit_two_pow_self]
  | false =>
    simp [hmask, Nat.testBit_land, Nat.testBit_xor, Nat.testBit_two_pow_self]
    intro _
    have h32 : (4294967295 : ℕ) = 2 ^ 32 - 1 := by norm_num
    rw [h32, Nat.testBit_two_pow_sub_one]
    simp [hb]

theorem bitset_get_set_ne (bitset : List ℕ) {bit_offset k : ℕ} (h : k ≠ bit_offset) (v : Bool) :
    bitset_get (bitset_set bitset bit_offset v) k = bitset_get bitset k := by
  unfold bitset_get bitset_set
  rcases Nat.lt_or_ge (bit_offset / 32) bitset.length with hin | hout
  · rcases eq_or_ne (bit_offset / 32) (k / 32) with hw | hw
    · have hbit : 31 - bit_offset % 32 ≠ 31 - k % 32 := by omega
      have hb' : 31 - k % 32 < 32 := by omega
      have hmask : (1 <<< (31 - bit_offset % 32)) = 2 ^ (31 - bit_offset % 32) := by
        rw [Nat.shiftLeft_eq, one_mul]
      rw [← hw, getD_set_self hin]
      cases v with
      | true =>
        simp only [if_true, hmask, Nat.testBit_lor, Nat.testBit_two_pow_of_ne hbit,
          Bool.or_false]
      | false =>
        simp [hmask, Nat.testBit_land, Nat.testBit_xor, Nat.testBit_two_pow_of_ne hbit]
        intro _
        have h32 : (4294967295 : ℕ) = 2 ^ 32 - 1 := by norm_num
        rw [h32, Nat.testBit_two_pow_sub_one]
        simp [hb']
    · rw [getD_set_ne _ hw]
  · rw [List.set_eq_of_length_le hout]

/-- The common shape of both bitset writers: fold over the bones in index
order, writing the rotation-predicate bit then the translation-predicate
bit at a running bit offset. -/
def write_track_bitset_loop (clip : AnimationClip) (rp tp : AnimatedBone → Bool)
    (n : ℕ) (init : List ℕ) : List ℕ × ℕ :=
  (List.range n).foldl
    (fun st bone_index =>
      let bone := clip.get_animated_bone bone_index
      let st := (bitset_set st.1 st.2 (rp bone), st.2 + 1)
      (bitset_set st.1 st.2 (tp bone), st.2 + 1))
    (init, 0)

theorem write_default_track_bitset_eq (clip : AnimationClip) (bitset_size : ℕ) :
    write_default_track_bitset clip bitset_size =
      (write_track_bitset_loop clip (fun bone => bone.rotation_track.is_default)
        (fun bone => bone.translation_track.is_default) clip.num_bones
        (bitset_reset bitset_size)).1 := rfl

theorem write_constant_track_bitset_eq (clip : AnimationClip) (bitset_size : ℕ) :
    write_constant_track_bitset clip bitset_size =
      (write_track_bitset_loop clip (fun bone => bone.rotation_track.is_constant)
        (fun bone => bone.translation_track.is_constant) clip.num_bones
        (bitset_reset bitset_size)).1 := rfl

theorem write_track_bitset_loop_spec (clip : AnimationClip) (rp tp : AnimatedBone → Bool)
    (n : ℕ) (init : List ℕ) :
    (write_track_bitset_loop clip rp tp n init).2 = 2 * n ∧
    (write_track_bitset_loop clip rp tp n init).1.length = init.length ∧
    (∀ k, 2 * n ≤ k →
      bitset_get (write_track_bitset_loop clip rp tp n init).1 k = bitset_get init k) ∧
    (∀ i, i < n → 2 * i + 1 < 32 * init.length →
      bitset_get (write_track_bitset_loop clip rp tp n init).1 (2 * i) =
        rp (clip.get_animated_bone i) ∧
      bitset_get (write_track_bitset_loop clip rp tp n init).1 (2 * i + 1) =
        tp (clip.get_animated_bone i)) := by
  induction n with
  | zero =>
    exact ⟨rfl, rfl, fun k _ => rfl, fun i hi _ => absurd hi (Nat.not_lt_zero i)⟩
  | succ m ih =>
    obtain ⟨ihofs, ihlen, ihhigh, ihbits⟩ := ih
    have hstep : write_track_bitset_loop clip rp tp (m + 1) init =
        (bitset_set
            (bitset_set (write_track_bitset_loop clip rp tp m init).1
              (write_track_bitset_loop clip rp tp m init).2
              (rp (clip.get_animated_bone m)))
            ((write_track_bitset_loop clip rp tp m init).2 + 1)
            (tp (clip.get_animated_bone m)),
          (write_track_bitset_loop clip rp tp m init).2 + 1 + 1) := by
      unfold write_track_bitset_loop
      rw [List.range_succ, List.foldl_append, List.foldl_cons, List.foldl_nil]
    rw [hstep, ihofs]
    have hlen2 : ∀ v1 v2 : Bool,
        (bitset_set (bitset_set (write_track_bitset_loop clip rp tp m init).1 (2 * m) v1)
          (2 * m + 1) v2).length = init.length := by
      intro v1 v2
      rw [bitset_set_length, bitset_set_length, ihlen]
    refine ⟨by omega, hlen2 _ _, ?_, ?_⟩
    · intro k hk
      rw [bitset_get_set_ne _ (by omega), bitset_get_set_ne _ (by omega)]
      exact ihhigh k (by omega)
    · intro i hi hrange
      rcases Nat.lt_or_ge i m with him | him
      · have h1 := (ihbits i him hrange).1
        have h2 := (ihbits i him hrange).2
        rw [bitset_get_set_ne _ (by omega), bitset_get_set_ne _ (by omega), h1,
          bitset_get_set_ne _ (by omega), bitset_get_set_ne _ (by omega), h2]
        exact ⟨rfl, rfl⟩
      · have him' : i = m := by omega
        rw [him']
        have hlen1 : (bitset_set (write_track_bitset_loop clip rp tp m init).1 (2 * m)
            (rp (clip.get_animated_bone m))).length = init.length := by
          rw [bitset_set_length, ihlen]
        constructor
        · rw [bitset_get_set_ne _ (by omega)]
          exact bitset_get_set_self (by rw [ihlen]; omega) _
        · exact bitset_get_set_self (by rw [hlen1]; omega) _

theorem two_mul_num_bones_le (num_bones : ℕ) :
    2 * num_bones ≤ 32 * bitset_size_of num_bones := by
  simp only [bitset_size_of, NUM_TRACKS_PER_BONE, BITSET_WIDTH]
  omega

/-- Both track bitsets, as written by `compress_clip`, store at bit
`2 × bone_index` the rotation predicate and at bit `2 × bone_index + 1`
the translation predicate of that bone. -/
theorem track_bitsets_get (clip : AnimationClip) {i : ℕ} (hi : i < clip.num_bones) :
    bitset_get (write_default_track_bitset clip (bitset_size_of clip.num_bones)) (2 * i) =
      (clip.get_animated_bone i).rotation_track.is_default ∧
    bitset_get (write_default_track_bitset clip (bitset_size_of clip.num_bones)) (2 * i + 1) =
      (clip.get_animated_bone i).translation_track.is_default ∧
    bitset_get (write_constant_track_bitset clip (bitset_size_of clip.num_bones)) (2 * i) =
      (clip.get_animated_bone i).rotation_track.is_constant ∧
    bitset_get (write_constant_track_bitset clip (bitset_size_of clip.num_bones)) (2 * i + 1) =
      (clip.get_animated_bone i).translation_track.is_constant := by
  have hlen : (bitset_reset (bitset_size_of clip.num_bones)).length =
      bitset_size_of clip.num_bones := by
    simp [bitset_reset]
  have hrange : 2 * i + 1 < 32 * (bitset_reset (bitset_size_of clip.num_bones)).length := by
    rw [hlen]
    have := two_mul_num_bones_le clip.num_bones
    omega
  have hd := (write_track_bitset_loop_spec clip
    (fun bone => bone.rotation_track.is_default)
    (fun bone => bone.translation_track.is_default) clip.num_bones
    (bitset_reset (bitset_size_of clip.num_bones))).2.2.2 i hi hrange
  have hc := (write_track_bitset_loop_spec clip
    (fun bone => bone.rotation_track.is_constant)
    (fun bone => bone.translation_track.is_constant) clip.num_bones
    (bitset_reset (bitset_size_of clip.num_bones))).2.2.2 i hi hrange
  rw [write_default_track_bitset_eq, write_constant_track_bitset_eq]
  exact ⟨hd.1, hd.2, hc.1, hc.2⟩

/-- Bits past `2 × bone_count` are never set in either track bitset. -/
theorem track_bitsets_get_high (clip : AnimationClip) {k : ℕ}
    (hk : 2 * clip.num_bones ≤ k) :
    bitset_get (write_default_track_bitset clip (bitset_size_of clip.num_bones)) k = false ∧
    bitset_get (write_constant_track_bitset clip (bitset_size_of clip.num_bones)) k = false := by
  have hd := (write_track_bitset_loop_spec clip
    (fun bone => bone.rotation_track.is_default)
    (fun bone => bone.translation_track.is_default) clip.num_bones
    (bitset_reset (bitset_size_of clip.num_bones))).2.2.1 k hk
  have hc := (write_track_bitset_loop_spec clip
    (fun bone => bone.rotation_track.is_constant)
    (fun bone => bone.translation_track.is_constant) clip.num_bones
    (bitset_reset (bitset_size_of clip.num_bones))).2.2.1 k hk
  rw [write_default_track_bitset_eq, write_constant_track_bitset_eq]
  rw [hd, hc, bitset_get_reset]
  exact ⟨rfl, rfl⟩

/-- C7: each bitset writer first clears all `ceil(2 × bone_count / 32)`
words, then visiting bones in index order sets bit `2 × bone_index` to the
rotation predicate and bit `2 × bone_index + 1` to the translation
predicate (`is_default` for one bitset, `is_constant` for the other); the
written word count equals the bitset size, a function of the bone count
only, and bits past `2 × bone_count` stay clear. -/
theorem track_bitsets_written_per_bone (clip : AnimationClip) :
    (write_default_track_bitset clip (bitset_size_of clip.num_bones)).length =
      bitset_size_of clip.num_bones ∧
    (write_constant_track_bitset clip (bitset_size_of clip.num_bones)).length =
      bitset_size_of clip.num_bones ∧
    (∀ i, i < clip.num_bones →
      bitset_get (write_default_track_bitset clip (bitset_size_of clip.num_bones)) (2 * i) =
        (clip.get_animated_bone i).rotation_track.is_default ∧
      bitset_get (write_default_track_bitset clip (bitset_size_of clip.num_bones)) (2 * i + 1) =
        (clip.get_animated_bone i).translation_track.is_default ∧
      bitset_get (write_constant_track_bitset clip (bitset_size_of clip.num_bones)) (2 * i) =
        (clip.get_animated_bone i).rotation_track.is_constant ∧
      bitset_get (write_constant_track_bitset clip (bitset_size_of clip.num_bones)) (2 * i + 1) =
        (clip.get_animated_bone i).translation_track.is_constant) ∧
    (∀ k, 2 * clip.num_bones ≤ k →
      bitset_get (write_default_track_bitset clip (bitset_size_of clip.num_bones)) k = false ∧
      bitset_get (write_constant_track_bitset clip (bitset_size_of clip.num_bones)) k = false) := by
  have hlen : (bitset_reset (bitset_size_of clip.num_bones)).length =
      bitset_size_of clip.num_bones := by
    simp [bitset_reset]
  refine ⟨?_, ?_, fun i hi => track_bitsets_get clip hi, fun k hk => track_bitsets_get_high clip hk⟩
  · rw [write_default_track_bitset_eq]
    rw [(write_track_bitset_loop_spec clip _ _ clip.num_bones _).2.1, hlen]
  · rw [write_constant_track_bitset_eq]
    rw [(write_track_bitset_loop_spec clip _ _ clip.num_bones _).2.1, hlen]

/-- Closed instance of the C7 theorem: bone 0 of the two-bone example clip
(constant rotation, default translation). -/
theorem track_bitsets_written_per_bone_witness :
    bitset_get (write_default_track_bitset exampleClip (bitset_size_of exampleClip.num_bones)) 0 =
      false ∧
    bitset_get (write_default_track_bitset exampleClip (bitset_size_of exampleClip.num_bones)) 1 =
      true ∧
    bitset_get (write_constant_track_bitset exampleClip (bitset_size_of exampleClip.num_bones)) 0 =
      true ∧
    bitset_get (write_constant_track_bitset exampleClip (bitset_size_of exampleClip.num_bones)) 1 =
      false :=
  (track_bitsets_written_per_bone exampleClip).2.2.1 0 (by decide)

/-- C8: under the input contract that the track predicates are mutually
exclusive, no bit index is set in both the default-tracks bitset and the
constant-tracks bitset. -/
theorem default_constant_bitsets_disjoint (clip : AnimationClip)
    (hx : clip_tracks_exclusive clip) :
    ∀ k, ¬(bitset_get (write_default_track_bitset clip (bitset_size_of clip.num_bones)) k = true ∧
      bitset_get (write_constant_track_bitset clip (bitset_size_of clip.num_bones)) k = true) := by
  rintro k ⟨hd, hc⟩
  rcases Nat.lt_or_ge k (2 * clip.num_bones) with hk | hk
  · have hi : k / 2 < clip.num_bones := by omega
    obtain ⟨e1, e2, e3, e4⟩ := track_bitsets_get clip hi
    rcases Nat.even_or_odd k with he | ho
    · have hkeq : k = 2 * (k / 2) := by
        obtain ⟨t, ht⟩ := he
        omega
      rw [hkeq, e1] at hd
      rw [hkeq, e3] at hc
      have := (hx (k / 2)).1.1
      rw [hd, hc] at this
      simp at this
    · have hkeq : k = 2 * (k / 2) + 1 := by
        obtain ⟨t, ht⟩ := ho
        omega
      rw [hkeq, e2] at hd
      rw [hkeq, e4] at hc
      have := (hx (k / 2)).2.1
      rw [hd, hc] at this
      simp at this
  · obtain ⟨h1, h2⟩ := track_bitsets_get_high clip hk
    rw [h1] at hd
    exact absurd hd (by simp)

/-- Closed instance of the C8 theorem at bit 0 of the example clip. -/
theorem default_constant_bitsets_disjoint_witness :
    ¬(bitset_get (write_default_track_bitset exampleClip (bitset_size_of exampleClip.num_bones)) 0 = true ∧
      bitset_get (write_constant_track_bitset exampleClip (bitset_size_of exampleClip.num_bones)) 0 = true) :=
  default_constant_bitsets_disjoint exampleClip
    (by intro i; rcases i with _ | i <;> exact ⟨⟨rfl, rfl, rfl⟩, ⟨rfl, rfl, rfl⟩⟩) 0

/-! ### Payload writer bytes -/

/-- Bytes the constant-data writer's cursor advances on one bone. -/
def constant_bone_bytes (rotation_format : RotationFormat8)
    (translation_format : VectorFormat8) (bone : AnimatedBone) : ℕ :=
  (if !bone.rotation_track.is_default && bone.rotation_track.is_constant then
    get_rotation_size rotation_format else 0) +
  (if !bone.translation_track.is_default && bone.translation_track.is_constant then
    get_translation_size translation_format else 0)

/-- Bytes of the constant payload for a list of bone indices. -/
def constant_list_bytes (rotation_format : RotationFormat8)
    (translation_format : VectorFormat8) (clip : AnimationClip) (l : List ℕ) : ℕ :=
  (l.map (fun i => constant_bone_bytes rotation_format translation_format
    (clip.get_animated_bone i))).sum

/-- Total bytes of the constant-track payload of a clip. -/
def constant_track_bytes (rotation_format : RotationFormat8)
    (translation_format : VectorFormat8) (clip : AnimationClip) : ℕ :=
  constant_list_bytes rotation_format translation_format clip (List.range clip.num_bones)

/-- Bytes the animated-data writer's cursor advances on one bone at one
sample. -/
def animated_bone_bytes (rotation_format : RotationFormat8)
    (translation_format : VectorFormat8) (bone : AnimatedBone) : ℕ :=
  (if bone.rotation_track.is_animated then get_rotation_size rotation_format else 0) +
  (if bone.translation_track.is_animated then get_translation_size translation_format else 0)

/-- Bytes of the animated payload for a list of bone indices, one sample. -/
def animated_list_bytes (rotation_format : RotationFormat8)
    (translation_format : VectorFormat8) (clip : AnimationClip) (l : List ℕ) : ℕ :=
  (l.map (fun i => animated_bone_bytes rotation_format translation_format
    (clip.get_animated_bone i))).sum

/-- Bytes of the animated payload for one full sample (all bones). -/
def animated_sample_bytes (rotation_format : RotationFormat8)
    (translation_format : VectorFormat8) (clip : AnimationClip) : ℕ :=
  animated_list_bytes rotation_format translation_format clip (List.range clip.num_bones)

/-- Total bytes of the animated payload of a clip. -/
def animated_track_bytes (rotation_format : RotationFormat8)
    (translation_format : VectorFormat8) (clip : AnimationClip) : ℕ :=
  animated_sample_bytes rotation_format translation_format clip * clip.num_samples

theorem except_bind_ok {ε α β : Type} (a : α) (f : α → Except ε β) :
    (Except.ok a : Except ε α) >>= f = f a := rfl

theorem except_bind_error {ε α β : Type} (e : ε) (f : α → Except ε β) :
    (Except.error e : Except ε α) >>= f = Except.error e := rfl

theorem write_constant_track_data_loop_ok (rotation_format : RotationFormat8)
    (translation_format : VectorFormat8) (clip : AnimationClip) (endo : ℕ)
    (hin : clip_in_unit_range clip) (l : List ℕ) :
    ∀ cursor : ℕ,
      cursor + constant_list_bytes rotation_format translation_format clip l ≤ endo →
      ∃ es c2,
        write_constant_track_data_loop rotation_format translation_format clip endo
          l cursor = .ok (es, c2) ∧
        c2 = cursor + constant_list_bytes rotation_format translation_format clip l := by
  induction l with
  | nil =>
    intro cursor h
    exact ⟨[], cursor, rfl, by simp [constant_list_bytes]⟩
  | cons i rest ih =>
    intro cursor h
    obtain ⟨rcs, hrcs, _⟩ := write_rotation_size_eq rotation_format ((hin i 0).1)
    obtain ⟨tcs, htcs, _⟩ := write_translation_size_eq translation_format ((hin i 0).2)
    have hbytes : constant_list_bytes rotation_format translation_format clip (i :: rest) =
        ((if (!(clip.get_animated_bone i).rotation_track.is_default &&
            (clip.get_animated_bone i).rotation_track.is_constant) = true then
          get_rotation_size rotation_format else 0) +
        (if (!(clip.get_animated_bone i).translation_track.is_default &&
            (clip.get_animated_bone i).translation_track.is_constant) = true then
          get_translation_size translation_format else 0)) +
        constant_list_bytes rotation_format translation_format clip rest := by
      simp [constant_list_bytes, constant_bone_bytes]
    rw [hbytes] at h
    rw [hbytes]
    simp only [write_constant_track_data_loop]
    cases hg1 : (!(clip.get_animated_bone i).rotation_track.is_default &&
        (clip.get_animated_bone i).rotation_track.is_constant) <;>
      cases hg2 : (!(clip.get_animated_bone i).translation_track.is_default &&
          (clip.get_animated_bone i).translation_track.is_constant) <;>
        rw [hg1, hg2] at h <;>
          simp only [Bool.false_eq_true, if_false, if_true] at h <;>
            simp only [Bool.false_eq_true, if_false, if_true, hrcs, htcs, except_bind_ok]
    · rw [if_pos (show cursor ≤ endo by omega)]
      obtain ⟨es2, c2, heq, hc2⟩ := ih cursor (by omega)
      rw [heq, except_bind_ok]
      exact ⟨_, _, rfl, by omega⟩
    · rw [if_pos (show cursor + get_translation_size translation_format ≤ endo by omega)]
      obtain ⟨es2, c2, heq, hc2⟩ :=
        ih (cursor + get_translation_size translation_format) (by omega)
      rw [heq, except_bind_ok]
      exact ⟨_, _, rfl, by omega⟩
    · rw [if_pos (show cursor + get_rotation_size rotation_format ≤ endo by omega)]
      obtain ⟨es2, c2, heq, hc2⟩ :=
        ih (cursor + get_rotation_size rotation_format) (by omega)
      rw [heq, except_bind_ok]
      exact ⟨_, _, rfl, by omega⟩
    · rw [if_pos (show cursor + get_rotation_size rotation_format +
          get_translation_size translation_format ≤ endo by omega)]
      obtain ⟨es2, c2, heq, hc2⟩ :=
        ih (cursor + get_rotation_size rotation_format +
          get_translation_size translation_format) (by omega)
      rw [heq, except_bind_ok]
      exact ⟨_, _, rfl, by omega⟩

theorem write_constant_track_data_loop_overrun (rotation_format : RotationFormat8)
    (translation_format : VectorFormat8) (clip : AnimationClip) (endo : ℕ)
    (hin : clip_in_unit_range clip) (l : List ℕ) :
    ∀ cursor : ℕ, cursor ≤ endo →
      endo < cursor + constant_list_bytes rotation_format translation_format clip l →
      write_constant_track_data_loop rotation_format translation_format clip endo
        l cursor = .error .wrote_too_much := by
  induction l with
  | nil =>
    intro cursor h1 h2
    simp [constant_list_bytes] at h2
    exact absurd h1 (by omega)
  | cons i rest ih =>
    intro cursor h1 h2
    obtain ⟨rcs, hrcs, _⟩ := write_rotation_size_eq rotation_format ((hin i 0).1)
    obtain ⟨tcs, htcs, _⟩ := write_translation_size_eq translation_format ((hin i 0).2)
    have hbytes : constant_list_bytes rotation_format translation_format clip (i :: rest) =
        ((if (!(clip.get_animated_bone i).rotation_track.is_default &&
            (clip.get_animated_bone i).rotation_track.is_constant) = true then
          get_rotation_size rotation_format else 0) +
        (if (!(clip.get_animated_bone i).translation_track.is_default &&
            (clip.get_animated_bone i).translation_track.is_constant) = true then
          get_translation_size translation_format else 0)) +
        constant_list_bytes rotation_format translation_format clip rest := by
      simp [constant_list_bytes, constant_bone_bytes]
    rw [hbytes] at h2
    simp only [write_constant_track_data_loop]
    cases hg1 : (!(clip.get_animated_bone i).rotation_track.is_default &&
        (clip.get_animated_bone i).rotation_track.is_constant) <;>
      cases hg2 : (!(clip.get_animated_bone i).translation_track.is_default &&
          (clip.get_animated_bone i).translation_track.is_constant) <;>
        rw [hg1, hg2] at h2 <;>
          simp only [Bool.false_eq_true, if_false, if_true] at h2 <;>
            simp only [Bool.false_eq_true, if_false, if_true, hrcs, htcs, except_bind_ok]
    · rw [if_pos h1, ih cursor h1 (by omega), except_bind_error]
    · by_cases hc : cursor + get_translation_size translation_format ≤ endo
      · rw [if_pos hc, ih _ hc (by omega), except_bind_error]
      · rw [if_neg hc]
    · by_cases hc : cursor + get_rotation_size rotation_format ≤ endo
      · rw [if_pos hc, ih _ hc (by omega), except_bind_error]
      · rw [if_neg hc]
    · by_cases hc : cursor + get_rotation_size rotation_format +
          get_translation_size translation_format ≤ endo
      · rw [if_pos hc, ih _ hc (by omega), except_bind_error]
      · rw [if_neg hc]

/-- Behaviour of `write_constant_track_data` as a function of the declared
region size: success exactly on the true payload size, overrun error when
the region is smaller, underrun error when it is larger. -/
theorem write_constant_track_data_spec (rotation_format : RotationFormat8)
    (translation_format : VectorFormat8) (clip : AnimationClip)
    (hin : clip_in_unit_range clip) (size : ℕ) :
    (size = constant_track_bytes rotation_format translation_format clip →
      ∃ es, write_constant_track_data rotation_format translation_format clip size =
        .ok es) ∧
    (size < constant_track_bytes rotation_format translation_format clip →
      write_constant_track_data rotation_format translation_format clip size =
        .error .wrote_too_much) ∧
    (constant_track_bytes rotation_format translation_format clip < size →
      write_constant_track_data rotation_format translation_format clip size =
        .error .wrote_too_little) := by
  refine ⟨?_, ?_, ?_⟩
  · intro hsz
    obtain ⟨es, c2, heq, hc2⟩ := write_constant_track_data_loop_ok rotation_format
      translation_format clip size hin (List.range clip.num_bones) 0
      (by rw [hsz]; simp [constant_track_bytes])
    refine ⟨es, ?_⟩
    simp only [write_constant_track_data, heq, except_bind_ok]
    rw [if_pos (by rw [hc2, hsz]; simp [constant_track_bytes])]
  · intro hsz
    have h := write_constant_track_data_loop_overrun rotation_format translation_format
      clip size hin (List.range clip.num_bones) 0 (by omega)
      (by simpa [constant_track_bytes] using hsz)
    simp only [write_constant_track_data, h, except_bind_error]
  · intro hsz
    obtain ⟨es, c2, heq, hc2⟩ := write_constant_track_data_loop_ok rotation_format
      translation_format clip size hin (List.range clip.num_bones) 0
      (by simp only [Nat.zero_add]; exact le_of_lt (by simpa [constant_track_bytes] using hsz))
    simp only [write_constant_track_data, heq, except_bind_ok]
    have hne : ¬ c2 = size := by
      simp only [constant_track_bytes] at hsz
      omega
    rw [if_neg hne]

theorem write_animated_sample_loop_ok (rotation_format : RotationFormat8)
    (translation_format : VectorFormat8) (clip : AnimationClip)
    (sample_index endo : ℕ) (hin : clip_in_unit_range clip) (l : List ℕ) :
    ∀ cursor : ℕ,
      cursor + animated_list_bytes rotation_format translation_format clip l ≤ endo →
      ∃ es c2,
        write_animated_sample_loop rotation_format translation_format clip sample_index
          endo l cursor = .ok (es, c2) ∧
        c2 = cursor + animated_list_bytes rotation_format translation_format clip l := by
  induction l with
  | nil =>
    intro cursor h
    exact ⟨[], cursor, rfl, by simp [animated_list_bytes]⟩
  | cons i rest ih =>
    intro cursor h
    obtain ⟨rcs, hrcs, _⟩ :=
      write_rotation_size_eq rotation_format ((hin i sample_index).1)
    obtain ⟨tcs, htcs, _⟩ :=
      write_translation_size_eq translation_format ((hin i sample_index).2)
    have hbytes : animated_list_bytes rotation_format translation_format clip (i :: rest) =
        ((if (clip.get_animated_bone i).rotation_track.is_animated = true then
          get_rotation_size rotation_format else 0) +
        (if (clip.get_animated_bone i).translation_track.is_animated = true then
          get_translation_size translation_format else 0)) +
        animated_list_bytes rotation_format translation_format clip rest := by
      simp [animated_list_bytes, animated_bone_bytes]
    rw [hbytes] at h
    rw [hbytes]
    simp only [write_animated_sample_loop]
    cases hg1 : (clip.get_animated_bone i).rotation_track.is_animated <;>
      cases hg2 : (clip.get_animated_bone i).translation_track.is_animated <;>
        rw [hg1, hg2] at h <;>
          simp only [Bool.false_eq_true, if_false, if_true] at h <;>
            simp only [Bool.false_eq_true, if_false, if_true, hrcs, htcs, except_bind_ok]
    · rw [if_pos (show cursor ≤ endo by omega)]
      obtain ⟨es2, c2, heq, hc2⟩ := ih cursor (by omega)
      rw [heq, except_bind_ok]
      exact ⟨_, _, rfl, by omega⟩
    · rw [if_pos (show cursor + get_translation_size translation_format ≤ endo by omega)]
      obtain ⟨es2, c2, heq, hc2⟩ :=
        ih (cursor + get_translation_size translation_format) (by omega)
      rw [heq, except_bind_ok]
      exact ⟨_, _, rfl, by omega⟩
    · rw [if_pos (show cursor + get_rotation_size rotation_format ≤ endo by omega)]
      obtain ⟨es2, c2, heq, hc2⟩ :=
        ih (cursor + get_rotation_size rotation_format) (by omega)
      rw [heq, except_bind_ok]
      exact ⟨_, _, rfl, by omega⟩
    · rw [if_pos (show cursor + get_rotation_size rotation_format +
          get_translation_size translation_format ≤ endo by omega)]
      obtain ⟨es2, c2, heq, hc2⟩ :=
        ih (cursor + get_rotation_size rotation_format +
          get_translation_size translation_format) (by omega)
      rw [heq, except_bind_ok]
      exact ⟨_, _, rfl, by omega⟩

theorem write_animated_sample_loop_overrun (rotation_format : RotationFormat8)
    (translation_format : VectorFormat8) (clip : AnimationClip)
    (sample_index endo : ℕ) (hin : clip_in_unit_range clip) (l : List ℕ) :
    ∀ cursor : ℕ, cursor ≤ endo →
      endo < cursor + animated_list_bytes rotation_format translation_format clip l →
      write_animated_sample_loop rotation_format translation_format clip sample_index
        endo l cursor = .error .wrote_too_much := by
  induction l with
  | nil =>
    intro cursor h1 h2
    simp [animated_list_bytes] at h2
    exact absurd h1 (by omega)
  | cons i rest ih =>
    intro cursor h1 h2
    obtain ⟨rcs, hrcs, _⟩ :=
      write_rotation_size_eq rotation_format ((hin i sample_index).1)
    obtain ⟨tcs, htcs, _⟩ :=
      write_translation_size_eq translation_format ((hin i sample_index).2)
    have hbytes : animated_list_bytes rotation_format translation_format clip (i :: rest) =
        ((if (clip.get_animated_bone i).rotation_track.is_animated = true then
          get_rotation_size rotation_format else 0) +
        (if (clip.get_animated_bone i).translation_track.is_animated = true then
          get_translation_size translation_format else 0)) +
        animated_list_bytes rotation_format translation_format clip rest := by
      simp [animated_list_bytes, animated_bone_bytes]
    rw [hbytes] at h2
    simp only [write_animated_sample_loop]
    cases hg1 : (clip.get_animated_bone i).rotation_track.is_animated <;>
      cases hg2 : (clip.get_animated_bone i).translation_track.is_animated <;>
        rw [hg1, hg2] at h2 <;>
          simp only [Bool.false_eq_true, if_false, if_true] at h2 <;>
            simp only [Bool.false_eq_true, if_false, if_true, hrcs, htcs, except_bind_ok]
    · rw [if_pos h1, ih cursor h1 (by omega), except_bind_error]
    · by_cases hc : cursor + get_translation_size translation_format ≤ endo
      · rw [if_pos hc, ih _ hc (by omega), except_bind_error]
      · rw [if_neg hc]
    · by_cases hc : cursor + get_rotation_size rotation_format ≤ endo
      · rw [if_pos hc, ih _ hc (by omega), except_bind_error]
      · rw [if_neg hc]
    · by_cases hc : cursor + get_rotation_size rotation_format +
          get_translation_size translation_format ≤ endo
      · rw [if_pos hc, ih _ hc (by omega), except_bind_error]
      · rw [if_neg hc]

theorem write_animated_samples_loop_ok (rotation_format : RotationFormat8)
    (translation_format : VectorFormat8) (clip : AnimationClip) (endo : ℕ)
    (hin : clip_in_unit_range clip) (l : List ℕ) :
    ∀ cursor : ℕ,
      cursor + l.length * animated_sample_bytes rotation_format translation_format clip ≤
        endo →
      ∃ es c2,
        write_animated_samples_loop rotation_format translation_format clip endo
          l cursor = .ok (es, c2) ∧
        c2 = cursor +
          l.length * animated_sample_bytes rotation_format translation_format clip := by
  induction l with
  | nil =>
    intro cursor h
    exact ⟨[], cursor, rfl, by simp⟩
  | cons s rest ih =>
    intro cursor h
    have hmul : (s :: rest).length *
        animated_sample_bytes rotation_format translation_format clip =
        animated_sample_bytes rotation_format translation_format clip +
          rest.length * animated_sample_bytes rotation_format translation_format clip := by
      simp [List.length_cons]
      ring
    rw [hmul] at h
    rw [hmul]
    obtain ⟨es1, c1, heq1, hc1⟩ := write_animated_sample_loop_ok rotation_format
      translation_format clip s endo hin (List.range clip.num_bones) cursor
      (by simp only [animated_sample_bytes] at h ⊢; omega)
    simp only [write_animated_samples_loop]
    rw [heq1, except_bind_ok]
    obtain ⟨es2, c2, heq2, hc2⟩ := ih c1 (by
      simp only [animated_sample_bytes] at *
      omega)
    rw [heq2, except_bind_ok]
    refine ⟨_, _, rfl, ?_⟩
    simp only [animated_sample_bytes] at *
    omega

theorem write_animated_samples_loop_overrun (rotation_format : RotationFormat8)
    (translation_format : VectorFormat8) (clip : AnimationClip) (endo : ℕ)
    (hin : clip_in_unit_range clip) (l : List ℕ) :
    ∀ cursor : ℕ, cursor ≤ endo →
      endo < cursor +
        l.length * animated_sample_bytes rotation_format translation_format clip →
      write_animated_samples_loop rotation_format translation_format clip endo
        l cursor = .error .wrote_too_much := by
  induction l with
  | nil =>
    intro cursor h1 h2
    simp at h2
    exact absurd h1 (by omega)
  | cons s rest ih =>
    intro cursor h1 h2
    have hmul : (s :: rest).length *
        animated_sample_bytes rotation_format translation_format clip =
        animated_sample_bytes rotation_format translation_format clip +
          rest.length * animated_sample_bytes rotation_format translation_format clip := by
      simp [List.length_cons]
      ring
    rw [hmul] at h2
    simp only [write_animated_samples_loop]
    by_cases hc : cursor +
        animated_sample_bytes rotation_format translation_format clip ≤ endo
    · obtain ⟨es1, c1, heq1, hc1⟩ := write_animated_sample_loop_ok rotation_format
        translation_format clip s endo hin (List.range clip.num_bones) cursor
        (by simp only [animated_sample_bytes] at hc ⊢; omega)
      rw [heq1, except_bind_ok]
      rw [ih c1 (by simp only [animated_sample_bytes] at *; omega)
        (by simp only [animated_sample_bytes] at *; omega), except_bind_error]
    · rw [write_animated_sample_loop_overrun rotation_format translation_format clip s
        endo hin (List.range clip.num_bones) cursor h1
        (by simp only [animated_sample_bytes] at hc ⊢; omega), except_bind_error]

/-- Behaviour of `write_animated_track_data` as a function of the declared
region size: success exactly on the true payload size, overrun error when
the region is smaller, underrun error when it is larger. -/
theorem write_animated_track_data_spec (rotation_format : RotationFormat8)
    (translation_format : VectorFormat8) (clip : AnimationClip)
    (hin : clip_in_unit_range clip) (size : ℕ) :
    (size = animated_track_bytes rotation_format translation_format clip →
      ∃ es, write_animated_track_data rotation_format translation_format clip size =
        .ok es) ∧
    (size < animated_track_bytes rotation_format translation_format clip →
      write_animated_track_data rotation_format translation_format clip size =
        .error .wrote_too_much) ∧
    (animated_track_bytes rotation_format translation_format clip < size →
      write_animated_track_data rotation_format translation_format clip size =
        .error .wrote_too_little) := by
  have htot : (List.range clip.num_samples).length *
      animated_sample_bytes rotation_format translation_format clip =
      animated_track_bytes rotation_format translation_format clip := by
    simp [animated_track_bytes]
    ring
  refine ⟨?_, ?_, ?_⟩
  · intro hsz
    obtain ⟨es, c2, heq, hc2⟩ := write_animated_samples_loop_ok rotation_format
      translation_format clip size hin (List.range clip.num_samples) 0
      (by rw [htot, ← hsz]; omega)
    refine ⟨es, ?_⟩
    simp only [write_animated_track_data, heq, except_bind_ok]
    rw [if_pos (by rw [hc2, htot, ← hsz]; omega)]
  · intro hsz
    have h := write_animated_samples_loop_overrun rotation_format translation_format
      clip size hin (List.range clip.num_samples) 0 (by omega)
      (by rw [htot]; omega)
    simp only [write_animated_track_data, h, except_bind_error]
  · intro hsz
    obtain ⟨es, c2, heq, hc2⟩ := write_animated_samples_loop_ok rotation_format
      translation_format clip size hin (List.range clip.num_samples) 0
      (by rw [htot]; omega)
    simp only [write_animated_track_data, heq, except_bind_ok]
    rw [if_neg (by rw [hc2, htot]; omega)]

/-- C3: both payload writers detect layout overrun inside their iteration
(`wrote_too_much` as soon as the cursor exceeds the precomputed region
end) and layout underrun after the iteration (`wrote_too_little` when the
final cursor falls short of the region end); they succeed exactly when
the cursor lands on the region end, and an error aborts the writer with
no partial output. -/
theorem payload_writers_detect_layout_mismatch (rotation_format : RotationFormat8)
    (translation_format : VectorFormat8) (clip : AnimationClip)
    (hin : clip_in_unit_range clip) :
    (∀ size : ℕ,
      ((write_constant_track_data rotation_format translation_format clip size).isOk =
          true ↔
        size = constant_track_bytes rotation_format translation_format clip) ∧
      (size < constant_track_bytes rotation_format translation_format clip →
        write_constant_track_data rotation_format translation_format clip size =
          .error .wrote_too_much) ∧
      (constant_track_bytes rotation_format translation_format clip < size →
        write_constant_track_data rotation_format translation_format clip size =
          .error .wrote_too_little)) ∧
    (∀ size : ℕ,
      ((write_animated_track_data rotation_format translation_format clip size).isOk =
          true ↔
        size = animated_track_bytes rotation_format translation_format clip) ∧
      (size < animated_track_bytes rotation_format translation_format clip →
        write_animated_track_data rotation_format translation_format clip size =
          .error .wrote_too_much) ∧
      (animated_track_bytes rotation_format translation_format clip < size →
        write_animated_track_data rotation_format translation_format clip size =
          .error .wrote_too_little)) := by
  constructor
  · intro size
    obtain ⟨hok, hover, hunder⟩ :=
      write_constant_track_data_spec rotation_format translation_format clip hin size
    refine ⟨⟨?_, ?_⟩, hover, hunder⟩
    · intro hisok
      by_contra hne
      rcases Nat.lt_or_ge size
          (constant_track_bytes rotation_format translation_format clip) with hlt | hge
      · rw [hover hlt] at hisok
        simp [Except.isOk, Except.toBool] at hisok
      · have hlt2 : constant_track_bytes rotation_format translation_format clip <
            size := by omega
        rw [hunder hlt2] at hisok
        simp [Except.isOk, Except.toBool] at hisok
    · intro hsz
      obtain ⟨es, hes⟩ := hok hsz
      rw [hes]
      rfl
  · intro size
    obtain ⟨hok, hover, hunder⟩ :=
      write_animated_track_data_spec rotation_format translation_format clip hin size
    refine ⟨⟨?_, ?_⟩, hover, hunder⟩
    · intro hisok
      by_contra hne
      rcases Nat.lt_or_ge size
          (animated_track_bytes rotation_format translation_format clip) with hlt | hge
      · rw [hover hlt] at hisok
        simp [Except.isOk, Except.toBool] at hisok
      · have hlt2 : animated_track_bytes rotation_format translation_format clip <
            size := by omega
        rw [hunder hlt2] at hisok
        simp [Except.isOk, Except.toBool] at hisok
    · intro hsz
      obtain ⟨es, hes⟩ := hok hsz
      rw [hes]
      rfl

theorem exampleClip_in_unit_range : clip_in_unit_range exampleClip := by
  intro i s
  rcases i with _ | i
  · exact ⟨show quat_in_unit_range exampleQuat by decide,
      show vector_in_unit_range exampleVec by decide⟩
  · exact ⟨show quat_in_unit_range exampleQuat by decide,
      show vector_in_unit_range exampleVec by decide⟩

/-- Closed instance of the C3 theorem: on the example clip with 48-bit
rotations the constant payload is 6 bytes, so a 3-byte region is an
overrun and a 7-byte region an underrun. -/
theorem payload_writers_detect_layout_mismatch_witness :
    write_constant_track_data .Quat_48 .Vector3_96 exampleClip 3 =
      .error .wrote_too_much ∧
    write_constant_track_data .Quat_48 .Vector3_96 exampleClip 7 =
      .error .wrote_too_little := by
  have h := payload_writers_detect_layout_mismatch .Quat_48 .Vector3_96 exampleClip
    exampleClip_in_unit_range
  exact ⟨(h.1 3).2.1 (by decide), (h.1 7).2.2 (by decide)⟩

/-! ### Animated payload ordering -/

/-- The entries the animated writer produces for one bone at one sample:
the rotation sample (when the rotation track is animated) followed by the
translation sample (when the translation track is animated). -/
def animated_bone_entries (rotation_format : RotationFormat8)
    (translation_format : VectorFormat8) (clip : AnimationClip)
    (sample_index bone_index : ℕ) : List Entry :=
  (if (clip.get_animated_bone bone_index).rotation_track.is_animated then
    [Entry.mk sample_index bone_index .rotation
      ((write_rotation rotation_format
        ((clip.get_animated_bone bone_index).rotation_track.get_sample sample_index)).getD [])
      (get_rotation_size rotation_format)]
  else []) ++
  (if (clip.get_animated_bone bone_index).translation_track.is_animated then
    [Entry.mk sample_index bone_index .translation
      ((write_translation translation_format
        ((clip.get_animated_bone bone_index).translation_track.get_sample sample_index)).getD [])
      (get_translation_size translation_format)]
  else [])

/-- The full animated payload: outer iteration over sample indices, inner
iteration over bone indices. -/
def animated_entries (rotation_format : RotationFormat8)
    (translation_format : VectorFormat8) (clip : AnimationClip) : List Entry :=
  (List.range clip.num_samples).flatMap (fun sample_index =>
    (List.range clip.num_bones).flatMap (fun bone_index =>
      animated_bone_entries rotation_format translation_format clip sample_index bone_index))

theorem write_animated_sample_loop_entries (rotation_format : RotationFormat8)
    (translation_format : VectorFormat8) (clip : AnimationClip)
    (sample_index endo : ℕ) (hin : clip_in_unit_range clip) (l : List ℕ) :
    ∀ cursor : ℕ,
      cursor + animated_list_bytes rotation_format translation_format clip l ≤ endo →
      write_animated_sample_loop rotation_format translation_format clip sample_index
        endo l cursor =
      .ok (l.flatMap (fun bone_index =>
          animated_bone_entries rotation_format translation_format clip sample_index
            bone_index),
        cursor + animated_list_bytes rotation_format translation_format clip l) := by
  induction l with
  | nil =>
    intro cursor h
    simp [write_animated_sample_loop, animated_list_bytes]
  | cons i rest ih =>
    intro cursor h
    obtain ⟨rcs, hrcs, _⟩ :=
      write_rotation_size_eq rotation_format ((hin i sample_index).1)
    obtain ⟨tcs, htcs, _⟩ :=
      write_translation_size_eq translation_format ((hin i sample_index).2)
    have hbytes : animated_list_bytes rotation_format translation_format clip (i :: rest) =
        ((if (clip.get_animated_bone i).rotation_track.is_animated = true then
          get_rotation_size rotation_format else 0) +
        (if (clip.get_animated_bone i).translation_track.is_animated = true then
          get_translation_size translation_format else 0)) +
        animated_list_bytes rotation_format translation_format clip rest := by
      simp [animated_list_bytes, animated_bone_bytes]
    rw [hbytes] at h
    rw [hbytes, List.flatMap_cons]
    simp only [write_animated_sample_loop]
    cases hg1 : (clip.get_animated_bone i).rotation_track.is_animated <;>
      cases hg2 : (clip.get_animated_bone i).translation_track.is_animated <;>
        rw [hg1, hg2] at h <;>
          simp only [Bool.false_eq_true, if_false, if_true] at h <;>
            simp only [Bool.false_eq_true, if_false, if_true, hrcs, htcs, except_bind_ok]
    · rw [if_pos (show cursor ≤ endo by omega), ih cursor (by omega), except_bind_ok]
      simp only [Except.ok.injEq, Prod.mk.injEq]
      refine ⟨?_, by omega⟩
      simp [animated_bone_entries, hg1, hg2]
    · rw [if_pos (show cursor + get_translation_size translation_format ≤ endo by omega),
        ih (cursor + get_translation_size translation_format) (by omega), except_bind_ok]
      simp only [Except.ok.injEq, Prod.mk.injEq]
      refine ⟨?_, by omega⟩
      simp [animated_bone_entries, hg1, hg2, htcs]
    · rw [if_pos (show cursor + get_rotation_size rotation_format ≤ endo by omega),
        ih (cursor + get_rotation_size rotation_format) (by omega), except_bind_ok]
      simp only [Except.ok.injEq, Prod.mk.injEq]
      refine ⟨?_, by omega⟩
      simp [animated_bone_entries, hg1, hg2, hrcs]
    · rw [if_pos (show cursor + get_rotation_size rotation_format +
          get_translation_size translation_format ≤ endo by omega),
        ih (cursor + get_rotation_size rotation_format +
          get_translation_size translation_format) (by omega), except_bind_ok]
      simp only [Except.ok.injEq, Prod.mk.injEq]
      refine ⟨?_, by omega⟩
      simp [animated_bone_entries, hg1, hg2, hrcs, htcs]

theorem write_animated_samples_loop_entries (rotation_format : RotationFormat8)
    (translation_format : VectorFormat8) (clip : AnimationClip) (endo : ℕ)
    (hin : clip_in_unit_range clip) (l : List ℕ) :
    ∀ cursor : ℕ,
      cursor + l.length * animated_sample_bytes rotation_format translation_format clip ≤
        endo →
      write_animated_samples_loop rotation_format translation_format clip endo l cursor =
      .ok (l.flatMap (fun sample_index =>
          (List.range clip.num_bones).flatMap (fun bone_index =>
            animated_bone_entries rotation_format translation_format clip sample_index
              bone_index)),
        cursor + l.length * animated_sample_bytes rotation_format translation_format clip) := by
  induction l with
  | nil =>
    intro cursor h
    simp [write_animated_samples_loop]
  | cons s rest ih =>
    intro cursor h
    have hmul : (s :: rest).length *
        animated_sample_bytes rotation_format translation_format clip =
        animated_sample_bytes rotation_format translation_format clip +
          rest.length * animated_sample_bytes rotation_format translation_format clip := by
      simp [List.length_cons]
      ring
    rw [hmul] at h
    rw [hmul, List.flatMap_cons]
    simp only [write_animated_samples_loop]
    rw [write_animated_sample_loop_entries rotation_format translation_format clip s endo
      hin (List.range clip.num_bones) cursor
      (by simp only [animated_sample_bytes] at *; omega), except_bind_ok]
    rw [ih (cursor + animated_list_bytes rotation_format translation_format clip
        (List.range clip.num_bones))
      (by simp only [animated_sample_bytes] at *; omega), except_bind_ok]
    simp only [Except.ok.injEq, Prod.mk.injEq, animated_sample_bytes]
    exact ⟨trivial, by omega⟩

/-- On valid input the animated writer, called with the exact planned
size, outputs exactly the canonical sample-major, bone-minor entry list. -/
theorem write_animated_track_data_entries (rotation_format : RotationFormat8)
    (translation_format : VectorFormat8) (clip : AnimationClip)
    (hin : clip_in_unit_range clip) :
    write_animated_track_data rotation_format translation_format clip
      (animated_track_bytes rotation_format translation_format clip) =
    .ok (animated_entries rotation_format translation_format clip) := by
  have htot : (List.range clip.num_samples).length *
      animated_sample_bytes rotation_format translation_format clip =
      animated_track_bytes rotation_format translation_format clip := by
    simp [animated_track_bytes]
    ring
  simp only [write_animated_track_data]
  rw [write_animated_samples_loop_entries rotation_format translation_format clip
    (animated_track_bytes rotation_format translation_format clip) hin
    (List.range clip.num_samples) 0 (by rw [htot]; omega), except_bind_ok]
  rw [if_pos (by rw [htot]; omega)]
  rfl

/-- Strict placement order of two payload entries: earlier sample first,
then earlier bone, then rotation before translation within a bone. -/
def Entry.lex_before (a b : Entry) : Prop :=
  a.sample_index < b.sample_index ∨
    (a.sample_index = b.sample_index ∧
      (a.bone_index < b.bone_index ∨
        (a.bone_index = b.bone_index ∧ a.kind = .rotation ∧ b.kind = .translation)))

/-- The entry belongs to a track for which `is_animated()` holds. -/
def entry_from_animated_track (clip : AnimationClip) (e : Entry) : Prop :=
  match e.kind with
  | .rotation => (clip.get_animated_bone e.bone_index).rotation_track.is_animated = true
  | .translation => (clip.get_animated_bone e.bone_index).translation_track.is_animated = true

theorem mem_animated_bone_entries {rotation_format : RotationFormat8}
    {translation_format : VectorFormat8} {clip : AnimationClip}
    {sample_index bone_index : ℕ} {e : Entry}
    (h : e ∈ animated_bone_entries rotation_format translation_format clip sample_index
      bone_index) :
    e.sample_index = sample_index ∧ e.bone_index = bone_index ∧
      entry_from_animated_track clip e := by
  simp only [animated_bone_entries, List.mem_append] at h
  rcases h with h | h
  · cases hg : (clip.get_animated_bone bone_index).rotation_track.is_animated <;>
      rw [hg] at h <;> simp only [Bool.false_eq_true, if_false, if_true] at h
    · exact absurd h (List.not_mem_nil e)
    · rw [List.mem_singleton] at h
      subst h
      exact ⟨rfl, rfl, by simp [entry_from_animated_track, hg]⟩
  · cases hg : (clip.get_animated_bone bone_index).translation_track.is_animated <;>
      rw [hg] at h <;> simp only [Bool.false_eq_true, if_false, if_true] at h
    · exact absurd h (List.not_mem_nil e)
    · rw [List.mem_singleton] at h
      subst h
      exact ⟨rfl, rfl, by simp [entry_from_animated_track, hg]⟩

theorem pairwise_animated_bone_entries (rotation_format : RotationFormat8)
    (translation_format : VectorFormat8) (clip : AnimationClip)
    (sample_index bone_index : ℕ) :
    List.Pairwise Entry.lex_before
      (animated_bone_entries rotation_format translation_format clip sample_index
        bone_index) := by
  unfold animated_bone_entries
  cases hg1 : (clip.get_animated_bone bone_index).rotation_track.is_animated <;>
    cases hg2 : (clip.get_animated_bone bone_index).translation_track.is_animated <;>
      simp [Bool.false_eq_true, Entry.lex_before]

theorem pairwise_flatMap_of {α β : Type} {R : β → β → Prop} (f : α → List β)
    (l : List α) (hp : List.Pairwise (fun a b => ∀ x ∈ f a, ∀ y ∈ f b, R x y) l)
    (hf : ∀ a ∈ l, List.Pairwise R (f a)) :
    List.Pairwise R (l.flatMap f) := by
  induction l with
  | nil => simp
  | cons a l ih =>
    rw [List.flatMap_cons, List.pairwise_append]
    rcases List.pairwise_cons.mp hp with ⟨hhead, htail⟩
    refine ⟨hf a (by simp), ih htail (fun b hb => hf b (by simp [hb])), ?_⟩
    intro x hx y hy
    rw [List.mem_flatMap] at hy
    obtain ⟨b, hb, hyb⟩ := hy
    exact hhead b hb x hx y hyb

theorem pairwise_animated_sample_entries (rotation_format : RotationFormat8)
    (translation_format : VectorFormat8) (clip : AnimationClip) (sample_index : ℕ) :
    List.Pairwise Entry.lex_before
      ((List.range clip.num_bones).flatMap (fun bone_index =>
        animated_bone_entries rotation_format translation_format clip sample_index
          bone_index)) := by
  apply pairwise_flatMap_of
  · refine (List.pairwise_lt_range clip.num_bones).imp ?_
    intro i j hij x hx y hy
    obtain ⟨hxs, hxb, _⟩ := mem_animated_bone_entries hx
    obtain ⟨hys, hyb, _⟩ := mem_animated_bone_entries hy
    exact Or.inr ⟨by rw [hxs, hys], Or.inl (by rw [hxb, hyb]; exact hij)⟩
  · intro i _
    exact pairwise_animated_bone_entries rotation_format translation_format clip
      sample_index i

theorem pairwise_animated_entries (rotation_format : RotationFormat8)
    (translation_format : VectorFormat8) (clip : AnimationClip) :
    List.Pairwise Entry.lex_before
      (animated_entries rotation_format translation_format clip) := by
  unfold animated_entries
  apply pairwise_flatMap_of
  · refine (List.pairwise_lt_range clip.num_samples).imp ?_
    intro s1 s2 hs x hx y hy
    rw [List.mem_flatMap] at hx hy
    obtain ⟨i1, _, hx⟩ := hx
    obtain ⟨i2, _, hy⟩ := hy
    obtain ⟨hxs, _, _⟩ := mem_animated_bone_entries hx
    obtain ⟨hys, _, _⟩ := mem_animated_bone_entries hy
    exact Or.inl (by rw [hxs, hys]; exact hs)
  · intro s _
    exact pairwise_animated_sample_entries rotation_format translation_format clip s

theorem mem_animated_entries {rotation_format : RotationFormat8}
    {translation_format : VectorFormat8} {clip : AnimationClip} {e : Entry}
    (h : e ∈ animated_entries rotation_format translation_format clip) :
    entry_from_animated_track clip e ∧ e.sample_index < clip.num_samples ∧
      e.bone_index < clip.num_bones := by
  unfold animated_entries at h
  rw [List.mem_flatMap] at h
  obtain ⟨s, hs, h⟩ := h
  rw [List.mem_flatMap] at h
  obtain ⟨i, hi, h⟩ := h
  obtain ⟨hes, heb, hanim⟩ := mem_animated_bone_entries h
  rw [List.mem_range] at hs hi
  exact ⟨hanim, by omega, by omega⟩

theorem take_sum_mono (l : List ℕ) : ∀ j k : ℕ, j ≤ k → (l.take j).sum ≤ (l.take k).sum := by
  induction l with
  | nil =>
    intro j k _
    simp
  | cons x l ih =>
    intro j k hjk
    cases j with
    | zero => simp
    | succ j2 =>
      cases k with
      | zero => omega
      | succ k2 =>
        simp only [List.take_succ_cons, List.sum_cons]
        exact Nat.add_le_add_left (ih j2 k2 (by omega)) x

/-- C4: whenever the animated writer succeeds, its output is ordered
sample-major / bone-minor (strictly increasing in sample index, then bone
index, then rotation before translation within a bone); every entry comes
from a track with `is_animated()` true; and the cursor extent of any entry
of an earlier sample lies entirely before the extent of any entry of a
later sample. -/
theorem animated_payload_sample_major_order (rotation_format : RotationFormat8)
    (translation_format : VectorFormat8) (clip : AnimationClip) (size : ℕ)
    (es : List Entry) (hin : clip_in_unit_range clip)
    (hbones : 2 ≤ clip.num_bones) (hsamples : 2 ≤ clip.num_samples)
    (hok : write_animated_track_data rotation_format translation_format clip size =
      .ok es) :
    List.Pairwise Entry.lex_before es ∧
    (∀ e ∈ es, entry_from_animated_track clip e ∧ e.sample_index < clip.num_samples ∧
      e.bone_index < clip.num_bones) ∧
    (∀ (i j : ℕ) (hi : i < es.length) (hj : j < es.length),
      (es.get ⟨i, hi⟩).sample_index < (es.get ⟨j, hj⟩).sample_index →
      ((es.map Entry.cursor_advance).take (i + 1)).sum ≤
        ((es.map Entry.cursor_advance).take j).sum) := by
  have hsize : size = animated_track_bytes rotation_format translation_format clip := by
    by_contra hne
    obtain ⟨_, hover, hunder⟩ :=
      write_animated_track_data_spec rotation_format translation_format clip hin size
    rcases Nat.lt_or_ge size
        (animated_track_bytes rotation_format translation_format clip) with hlt | hge
    · rw [hover hlt] at hok
      exact absurd hok (by simp)
    · have hlt2 : animated_track_bytes rotation_format translation_format clip < size := by
        omega
      rw [hunder hlt2] at hok
      exact absurd hok (by simp)
  rw [hsize, write_animated_track_data_entries rotation_format translation_format clip
    hin] at hok
  have hes : es = animated_entries rotation_format translation_format clip := by
    injection hok with h
    exact h.symm
  subst hes
  refine ⟨pairwise_animated_entries rotation_format translation_format clip,
    fun e he => mem_animated_entries he, ?_⟩
  intro i j hi hj hlt
  have hpair := List.pairwise_iff_getElem.mp
    (pairwise_animated_entries rotation_format translation_format clip)
  have hij : i < j := by
    by_contra hnij
    rcases Nat.lt_or_ge j i with hji | hge
    · have := hpair j i hj hi hji
      rcases this with h1 | ⟨h2, _⟩
      · simp only [List.get_eq_getElem] at hlt
        omega
      · simp only [List.get_eq_getElem] at hlt
        omega
    · have : i = j := by omega
      subst this
      simp only [List.get_eq_getElem] at hlt
      omega
  exact take_sum_mono _ (i + 1) j hij

/-- Closed instance of the C4 theorem on the two-bone, two-sample example
clip with full-width formats. -/
theorem animated_payload_sample_major_order_witness :
    List.Pairwise Entry.lex_before (animated_entries .Quat_96 .Vector3_96 exampleClip) :=
  (animated_payload_sample_major_order .Quat_96 .Vector3_96 exampleClip
    (animated_track_bytes .Quat_96 .Vector3_96 exampleClip)
    (animated_entries .Quat_96 .Vector3_96 exampleClip)
    exampleClip_in_unit_range (by decide) (by decide)
    (write_animated_track_data_entries .Quat_96 .Vector3_96 exampleClip
      exampleClip_in_unit_range)).1

/-- Closed instance of the C10 theorem at `x = −1`, `b = 16`. -/
theorem quantize_signed_normalized_no_truncation_witness :
    ∃ r : ℤ, quantize_signed_normalized (-1) 16 = some r ∧ 0 ≤ r ∧ r ≤ 2 ^ 16 - 1 :=
  quantize_signed_normalized_no_truncation.1 (-1) 16 (Or.inl rfl) (by norm_num) (by norm_num)

end ACL
